import Mathlib

/-!
# Shallow embedding of the SurfaceFlinger transaction callback dispatcher

This file embeds `services/surfaceflinger/TransactionCallbackInvoker.cpp` in
Lean 4 and proves properties of the dispatcher: registration, pending-work
counting, completion aggregation and the ordered dispatch loop
(`sendCallbacks`).

Modelling conventions:
* `sp<IBinder>` listener identities are opaque tags (`Listener := Nat`),
  compared by identity, exactly as the source compares binder pointers.
* The two `std::unordered_map`s (`mCompletedTransactions`,
  `mPendingTransactions`) and the `std::unordered_set`
  (`mRegisteringTransactions`) are association lists with a stable iteration
  order; `operator[]` (which default-inserts a missing key) is modelled
  explicitly because the source relies on it, in particular inside
  `findTransactionStats`.
* `uint32_t` pending counters are `Nat` with explicit wrap-around `% 2 ^ 32`
  where the source increments or decrements.
* The undefined behaviour of `compareCallbackIds` (reading `c2.front()` when
  `c2` is empty while `c1` is not) is made explicit: the embedding returns
  `Option Int`, `none` marking exactly the executions the C++ abstract machine
  leaves undefined, and every operation that can reach that read propagates
  the `none`.
* Each `TransactionStats` carries one ghost field `seq`, the value of a ghost
  registration counter at the time `startRegistration` appended it.  The
  ghost data is written only by `startRegistration` and read by no operation;
  it exists so that registration order can be named in theorem statements.
* Death-notification linking (`linkToDeath` / `unlinkToDeath`) is an external
  binder facility.  Modelled from the spec: subscription is an observer set
  (`linked`), and `linkToDeath` always succeeds (its failure path in the
  source returns before any state beyond the registration set is touched).
  Liveness at send time (`isBinderAlive`) is an oracle passed to the dispatch
  cycle.
-/

/-- Listener identity: opaque, identity-based equality (the source compares
`sp<IBinder>` pointers). -/
abbrev Listener := Nat

/-- `CallbackId::Type` of the source (declared in a header outside this
repository).  Modelled from the spec: callback slots are either on-commit or
on-complete. -/
inductive CallbackType where
  | onComplete
  | onCommit
  deriving DecidableEq

/-- One callback id: a numeric id plus its kind.  Modelled from the spec:
ids are small integers, so the `int64_t` id is embedded as `Int` and the
narrowing of the difference to `int` in `compareCallbackIds` is not
modelled. -/
structure CallbackId where
  id : Int
  type : CallbackType
  deriving DecidableEq

/-- Opaque fence handle (`sp<Fence>`); `none` models a null `sp<>`. -/
abbrev Fence := Nat

/-- Opaque jank-data record. -/
abbrev JankData := Nat

/-- `FrameEventHistoryStats` built inside `addCallbackHandle` from the
handle's timing data. -/
structure FrameEventHistoryStats where
  frameNumber : Nat
  gpuCompositionDoneFence : Fence
  compositorTiming : Nat
  refreshStartTime : Int
  dequeueReadyTime : Int
  deriving DecidableEq

/-- One per-work-unit result record (`SurfaceStats`), appended by
`addCallbackHandle`. -/
structure SurfaceStats where
  surfaceControl : Nat
  acquireTime : Int
  previousReleaseFence : Option Fence
  transformHint : Nat
  currentMaxAcquiredBufferCount : Nat
  eventStats : FrameEventHistoryStats
  jankData : List JankData
  previousReleaseCallbackId : Nat
  deriving DecidableEq

/-- One registered transaction (`TransactionStats`).  `latchTime` starts at
`-1` (modelled from the spec: the latch timestamp is unset until latched; the
source tests `latchTime >= 0`).  `seq` is ghost instrumentation: the value of
the registration counter when this record was appended. -/
structure TransactionStats where
  callbackIds : List CallbackId
  latchTime : Int
  presentFence : Option Fence
  surfaceStats : List SurfaceStats
  seq : Nat
  deriving DecidableEq

/-- A freshly registered transaction record, as `emplace_back(callbackIds)`
constructs it, carrying ghost sequence number `n`. -/
def mkTransactionStats (ids : List CallbackId) (n : Nat) : TransactionStats :=
  { callbackIds := ids, latchTime := -1, presentFence := none,
    surfaceStats := [], seq := n }

/-- `CallbackHandle`: one work unit.  `surfaceControl` models the
`wp<IBinder>` weak reference resolved once at fold time (`none` = the
resource is already gone), as the spec's design notes prescribe. -/
structure CallbackHandle where
  listener : Listener
  callbackIds : List CallbackId
  surfaceControl : Option Nat
  latchTime : Int
  acquireTime : Int
  previousReleaseFence : Option Fence
  transformHint : Nat
  currentMaxAcquiredBufferCount : Nat
  frameNumber : Nat
  gpuCompositionDoneFence : Fence
  compositorTiming : Nat
  refreshStartTime : Int
  dequeueReadyTime : Int
  previousReleaseCallbackId : Nat
  deriving DecidableEq

/-- `status_t` results actually produced by the embedded operations
(`NO_ERROR`, `BAD_VALUE`). -/
inductive Stat where
  | noError
  | badValue
  deriving DecidableEq

/-- `2 ^ 32`, the modulus of the `uint32_t` pending counters. -/
def UINT32 : Nat := 4294967296

/- ## Association-list helpers (the stable-order model of the source's hash
containers) -/

/-- First binding of key `k`, like `find` on the source's maps. -/
def alistFind {α β : Type} [DecidableEq α] : List (α × β) → α → Option β
  | [], _ => none
  | (a, b) :: rest, k => if a = k then some b else alistFind rest k

/-- Replace the binding of `k` (first occurrence) or append a new one:
the effect of `m[k] = v`. -/
def alistSet {α β : Type} [DecidableEq α] : List (α × β) → α → β → List (α × β)
  | [], k, v => [(k, v)]
  | (a, b) :: rest, k, v =>
    if a = k then (k, v) :: rest else (a, b) :: alistSet rest k v

/-- Erase the binding of `k` (first occurrence): the effect of `m.erase(it)`. -/
def alistErase {α β : Type} [DecidableEq α] : List (α × β) → α → List (α × β)
  | [], _ => []
  | (a, b) :: rest, k => if a = k then rest else (a, b) :: alistErase rest k

/-- `operator[]` observed only for its insertion side effect: default-insert
`(k, d)` when `k` is absent (at the end, the model's stable position for a
fresh hash-table entry). -/
def alistTouch {α β : Type} [DecidableEq α] (m : List (α × β)) (k : α) (d : β) :
    List (α × β) :=
  match alistFind m k with
  | some _ => m
  | none => m ++ [(k, d)]

/-- The registration set: `(listener, callbackIds)` pairs between
`startRegistration` and `endRegistration`. -/
abbrev RegSet := List (Listener × List CallbackId)

/-- `mCompletedTransactions`: per listener, the ordered deque of in-flight
transactions, front = oldest. -/
abbrev CompletedMap := List (Listener × List TransactionStats)

/-- `mPendingTransactions`: per listener, per callback-id vector, the
outstanding work-unit count. -/
abbrev PendingMap := List (Listener × List (List CallbackId × Nat))

/-- `compareCallbackIds` (source lines 40-46).  Returns `none` exactly when
the C++ code reads `c2.front()` of an empty vector (undefined behaviour):
`c1` non-empty and `c2` empty.  Otherwise:
`0` when `c1` is empty and `c2` is empty, `1` when only `c1` is empty,
and the difference of the leading ids when both are non-empty. -/
def compareCallbackIds (c1 c2 : List CallbackId) : Option Int :=
  match c1 with
  | [] => some (if c2.isEmpty then 0 else 1)
  | x :: _ =>
    match c2 with
    | [] => none
    | y :: _ => some (x.id - y.id)

/-- `containsOnCommitCallbacks` (source lines 48-50): non-empty and the
front element is of on-commit type. -/
def containsOnCommitCallbacks : List CallbackId → Bool
  | [] => false
  | c :: _ => c.type = CallbackType.onCommit

/-- The back-to-front search of `findTransactionStats` over one deque,
returning the transaction found.  Outer `none` = a `compareCallbackIds`
invocation hit undefined behaviour before a match was found; `some none` =
every comparison was defined and nothing matched; `some (some t)` = `t` is
the match nearest the back. -/
def findBack (dq : List TransactionStats) (ids : List CallbackId) :
    Option (Option TransactionStats) :=
  match dq with
  | [] => some none
  | t :: rest =>
    match findBack rest ids with
    | none => none
    | some (some u) => some (some u)
    | some none =>
      match compareCallbackIds t.callbackIds ids with
      | none => none
      | some c => if c = 0 then some (some t) else some none

/-- The same back-to-front search, applying `f` in place to the match (the
source mutates through the returned `TransactionStats*`). -/
def foldIntoLast (dq : List TransactionStats) (ids : List CallbackId)
    (f : TransactionStats → TransactionStats) :
    Option (Option (List TransactionStats)) :=
  match dq with
  | [] => some none
  | t :: rest =>
    match foldIntoLast rest ids f with
    | none => none
    | some (some rest') => some (some (t :: rest'))
    | some none =>
      match compareCallbackIds t.callbackIds ids with
      | none => none
      | some c => if c = 0 then some (some (f t :: rest)) else some none

/-- Dispatcher state: the fields of `TransactionCallbackInvoker` guarded by
`mMutex`, plus the observer set `linked` (death subscriptions) and the ghost
registration counter `nextSeq`. -/
structure InvokerState where
  registering : RegSet
  completed : CompletedMap
  pending : PendingMap
  presentFence : Option Fence
  linked : List Listener
  nextSeq : Nat
  deriving DecidableEq

/-- The empty dispatcher. -/
def initState : InvokerState :=
  { registering := [], completed := [], pending := [], presentFence := none,
    linked := [], nextSeq := 0 }

/-- `startRegistration` (source lines 61-80): insert into the registration
set; if newly inserted, link the listener's death notification when it has no
`mCompletedTransactions` entry yet, then append a fresh transaction record to
its deque. -/
def startRegistration (lc : Listener × List CallbackId) (s : InvokerState) :
    Stat × InvokerState :=
  if lc ∈ s.registering then (Stat.noError, s)
  else
    let doLink := (alistFind s.completed lc.1).isNone
    let dq := (alistFind s.completed lc.1).getD []
    (Stat.noError,
      { s with
        registering := lc :: s.registering,
        completed := alistSet s.completed lc.1
          (dq ++ [mkTransactionStats lc.2 s.nextSeq]),
        linked := if doLink then lc.1 :: s.linked else s.linked,
        nextSeq := s.nextSeq + 1 })

/-- `endRegistration` (source lines 82-94): erase the pair from the
registration set, `BAD_VALUE` when absent. -/
def endRegistration (lc : Listener × List CallbackId) (s : InvokerState) :
    Stat × InvokerState :=
  if lc ∈ s.registering then
    (Stat.noError, { s with registering := s.registering.erase lc })
  else (Stat.badValue, s)

/-- `isRegisteringTransaction` (source lines 96-102). -/
def isRegisteringTransaction (reg : RegSet) (l : Listener)
    (ids : List CallbackId) : Bool :=
  decide ((l, ids) ∈ reg)

/-- `mPendingTransactions.find` + inner `count != 0`, the pending test of the
dispatch loop (source lines 275-279). -/
def hasPendingCallbacks (pend : PendingMap) (l : Listener)
    (ids : List CallbackId) : Bool :=
  match alistFind pend l with
  | none => false
  | some inner => (alistFind inner ids).isSome

/-- `registerPendingCallbackHandle` (source lines 104-119):
`findTransactionStats` (whose `operator[]` default-inserts an empty deque for
an unseen listener) and, on success, `mPendingTransactions[l][ids]++`. -/
def registerPendingCallbackHandle (h : CallbackHandle) (s : InvokerState) :
    Option (Stat × InvokerState) :=
  let completed' := alistTouch s.completed h.listener []
  let dq := (alistFind completed' h.listener).getD []
  match findBack dq h.callbackIds with
  | none => none
  | some none => some (Stat.badValue, { s with completed := completed' })
  | some (some _) =>
    let inner := (alistFind s.pending h.listener).getD []
    let c := (alistFind inner h.callbackIds).getD 0
    some (Stat.noError,
      { s with
        completed := completed',
        pending := alistSet s.pending h.listener
          (alistSet inner h.callbackIds ((c + 1) % UINT32)) })

/-- The `SurfaceStats` record `addCallbackHandle` appends when the weak
reference promotes to `sc`. -/
def mkSurfaceStats (sc : Nat) (h : CallbackHandle) (jank : List JankData) :
    SurfaceStats :=
  { surfaceControl := sc,
    acquireTime := h.acquireTime,
    previousReleaseFence := h.previousReleaseFence,
    transformHint := h.transformHint,
    currentMaxAcquiredBufferCount := h.currentMaxAcquiredBufferCount,
    eventStats :=
      { frameNumber := h.frameNumber,
        gpuCompositionDoneFence := h.gpuCompositionDoneFence,
        compositorTiming := h.compositorTiming,
        refreshStartTime := h.refreshStartTime,
        dequeueReadyTime := h.dequeueReadyTime },
    jankData := jank,
    previousReleaseCallbackId := h.previousReleaseCallbackId }

/-- The in-place mutation `addCallbackHandle` performs on the located
transaction: set `latchTime` from the handle, and append one result record
exactly when the weak reference is still alive. -/
def foldHandle (h : CallbackHandle) (jank : List JankData)
    (t : TransactionStats) : TransactionStats :=
  let t1 := { t with latchTime := h.latchTime }
  match h.surfaceControl with
  | some sc => { t1 with surfaceStats := t1.surfaceStats ++ [mkSurfaceStats sc h jank] }
  | none => t1

/-- `addCallbackHandle` (source lines 216-244): locate the transaction via
`findTransactionStats` (back-to-front search, `operator[]` touch) and fold
the handle into it. -/
def addCallbackHandle (h : CallbackHandle) (jank : List JankData)
    (s : InvokerState) : Option (Stat × InvokerState) :=
  let completed' := alistTouch s.completed h.listener []
  let dq := (alistFind completed' h.listener).getD []
  match foldIntoLast dq h.callbackIds (foldHandle h jank) with
  | none => none
  | some none => some (Stat.badValue, { s with completed := completed' })
  | some (some dq') =>
    some (Stat.noError,
      { s with completed := alistSet completed' h.listener dq' })

/-- `finalizeCallbackHandle` (source lines 121-151): decrement the pending
counter (erasing the entry at zero, erasing the listener's inner map when it
empties, only warning when the counter is absent), then fold the handle via
`addCallbackHandle`. -/
def finalizeCallbackHandle (h : CallbackHandle) (jank : List JankData)
    (s : InvokerState) : Option (Stat × InvokerState) :=
  let s1 :=
    match alistFind s.pending h.listener with
    | none => s
    | some inner =>
      let inner' :=
        match alistFind inner h.callbackIds with
        | none => inner
        | some c =>
          let c' := (c + (UINT32 - 1)) % UINT32
          if c' = 0 then alistErase inner h.callbackIds
          else alistSet inner h.callbackIds c'
      let pending' :=
        if inner'.length = 0 then alistErase s.pending h.listener
        else alistSet s.pending h.listener inner'
      { s with pending := pending' }
  addCallbackHandle h jank s1

/-- `registerUnpresentedCallbackHandle` (source lines 191-196). -/
def registerUnpresentedCallbackHandle (h : CallbackHandle)
    (s : InvokerState) : Option (Stat × InvokerState) :=
  addCallbackHandle h [] s

/-- `addPresentFence` (source lines 246-249). -/
def addPresentFence (f : Fence) (s : InvokerState) : InvokerState :=
  { s with presentFence := some f }

/-- The per-transaction mutation of the dispatch loop: a latched transaction
whose leading callback id is not on-commit gets the cycle's present fence
attached before it is moved into the outbound batch. -/
def applyFence (fence : Option Fence) (t : TransactionStats) :
    TransactionStats :=
  if 0 ≤ t.latchTime ∧ containsOnCommitCallbacks t.callbackIds = false then
    { t with presentFence := fence }
  else t

/-- The dispatch loop's test for one transaction being movable to the
outbound batch: not registering, no pending work units, and (when latched
with a non-on-commit front) the present fence available. -/
def deliverable (reg : RegSet) (pend : PendingMap) (fence : Option Fence)
    (l : Listener) (t : TransactionStats) : Bool :=
  !isRegisteringTransaction reg l t.callbackIds &&
  !hasPendingCallbacks pend l t.callbackIds &&
  (!decide (0 ≤ t.latchTime) || containsOnCommitCallbacks t.callbackIds ||
    fence.isSome)

/-- The inner `while` of `sendCallbacks` (source lines 262-293): walk one
listener's deque from the front, moving transactions to the batch until the
first that is still registering, still pending, or latched and requiring an
absent present fence.  Returns (batch, remaining deque). -/
def walkDeque (reg : RegSet) (pend : PendingMap) (fence : Option Fence)
    (l : Listener) :
    List TransactionStats → List TransactionStats × List TransactionStats
  | [] => ([], [])
  | t :: rest =>
    if isRegisteringTransaction reg l t.callbackIds then ([], t :: rest)
    else if hasPendingCallbacks pend l t.callbackIds then ([], t :: rest)
    else if 0 ≤ t.latchTime ∧ containsOnCommitCallbacks t.callbackIds = false then
      match fence with
      | none => ([], t :: rest)
      | some f =>
        let w := walkDeque reg pend fence l rest
        ({ t with presentFence := some f } :: w.1, w.2)
    else
      let w := walkDeque reg pend fence l rest
      (t :: w.1, w.2)

/-- One outbound notification: the listener and the batch of transaction
records handed to `onTransactionCompleted`. -/
abbrev Delivery := Listener × List TransactionStats

/-- The outer `while` of `sendCallbacks` (source lines 255-320): for each
`mCompletedTransactions` entry, walk the deque; when the batch is non-empty
and the listener alive, deliver and (if the deque emptied) unlink and erase
the entry; when the listener is dead, erase the entry without delivering and
without unlinking.  Returns (new map, deliveries in emission order, listeners
unlinked this cycle). -/
def sendLoop (reg : RegSet) (pend : PendingMap) (fence : Option Fence)
    (alive : Listener → Bool) :
    CompletedMap → CompletedMap × List Delivery × List Listener
  | [] => ([], [], [])
  | (l, dq) :: rest =>
    let w := walkDeque reg pend fence l dq
    let r := sendLoop reg pend fence alive rest
    if w.1.isEmpty then ((l, w.2) :: r.1, r.2.1, r.2.2)
    else if alive l then
      if w.2.isEmpty then (r.1, (l, w.1) :: r.2.1, l :: r.2.2)
      else ((l, w.2) :: r.1, (l, w.1) :: r.2.1, r.2.2)
    else (r.1, r.2.1, r.2.2)

/-- `sendCallbacks` (source lines 251-325): run the loop over all listeners,
release the death subscriptions of the unlinked ones, and clear the present
fence at the end of the cycle. -/
def sendCallbacks (alive : Listener → Bool) (s : InvokerState) :
    InvokerState × List Delivery :=
  let r := sendLoop s.registering s.pending s.presentFence alive s.completed
  ({ s with
      completed := r.1,
      presentFence := none,
      linked := s.linked.filter (fun x => !decide (x ∈ r.2.2)) },
    r.2.1)

/-- One externally invokable operation of the dispatcher. -/
inductive Op where
  | start (l : Listener) (ids : List CallbackId)
  | endReg (l : Listener) (ids : List CallbackId)
  | regPending (h : CallbackHandle)
  | finalize (h : CallbackHandle) (jank : List JankData)
  | unpresented (h : CallbackHandle)
  | present (f : Fence)
  | send (alive : Listener → Bool)

/-- One step of the dispatcher: the state transition of the operation plus
the deliveries it emits; `none` when the execution runs into the undefined
comparison. -/
def step (s : InvokerState) : Op → Option (InvokerState × List Delivery)
  | Op.start l ids => some ((startRegistration (l, ids) s).2, [])
  | Op.endReg l ids => some ((endRegistration (l, ids) s).2, [])
  | Op.regPending h =>
    (registerPendingCallbackHandle h s).map (fun p => (p.2, []))
  | Op.finalize h jank =>
    (finalizeCallbackHandle h jank s).map (fun p => (p.2, []))
  | Op.unpresented h =>
    (registerUnpresentedCallbackHandle h s).map (fun p => (p.2, []))
  | Op.present f => some (addPresentFence f s, [])
  | Op.send alive => some (sendCallbacks alive s)

/-- Run a list of operations from `s`, accumulating emitted deliveries. -/
def runFrom (s : InvokerState) (ds : List Delivery) :
    List Op → Option (InvokerState × List Delivery)
  | [] => some (s, ds)
  | op :: ops =>
    match step s op with
    | none => none
    | some (s', d) => runFrom s' (ds ++ d) ops

/-- Run a list of operations from the empty dispatcher. -/
def run (ops : List Op) : Option (InvokerState × List Delivery) :=
  runFrom initState [] ops

/-- Ghost registration numbers delivered to listener `l`, flattened in
emission order (across cycles, batches in order, each batch front to back). -/
def delSeqs (ds : List Delivery) (l : Listener) : List Nat :=
  ds.flatMap (fun d => if d.1 = l then d.2.map TransactionStats.seq else [])

/-- Ghost registration numbers still queued for listener `l`, front to
back. -/
def deqSeqs (m : CompletedMap) (l : Listener) : List Nat :=
  ((alistFind m l).getD []).map TransactionStats.seq

/-- The pending counter recorded for `(l, ids)`, when present. -/
def pendingLookup (s : InvokerState) (l : Listener) (ids : List CallbackId) :
    Option Nat :=
  (alistFind s.pending l).bind (fun inner => alistFind inner ids)

/-- The inductive invariant behind the ordering proof: map keys are unique,
and for every listener the delivered ghost numbers followed by the queued
ones are strictly increasing and bounded by the ghost counter. -/
def GoodSt (s : InvokerState) (ds : List Delivery) : Prop :=
  (s.completed.map Prod.fst).Nodup ∧
  ∀ l, (delSeqs ds l ++ deqSeqs s.completed l).Pairwise (· < ·) ∧
    ∀ x ∈ delSeqs ds l ++ deqSeqs s.completed l, x < s.nextSeq

/-- The batches delivered to listener `l` within a delivery list, in
emission order. -/
def deliveredTo (ds : List Delivery) (l : Listener) :
    List (List TransactionStats) :=
  ds.filterMap (fun d => if d.1 = l then some d.2 else none)

/-- Shorthand: an on-commit callback id. -/
def cidCommit (n : Int) : CallbackId :=
  { id := n, type := CallbackType.onCommit }

/-- Shorthand: an on-complete callback id. -/
def cidComplete (n : Int) : CallbackId :=
  { id := n, type := CallbackType.onComplete }

/-- A concrete work-unit handle with fixed payload, used in concrete
evaluations of the embedding. -/
def sampleHandle (l : Listener) (ids : List CallbackId) (sc : Option Nat)
    (latch : Int) : CallbackHandle :=
  { listener := l, callbackIds := ids, surfaceControl := sc,
    latchTime := latch, acquireTime := 0, previousReleaseFence := none,
    transformHint := 0, currentMaxAcquiredBufferCount := 0, frameNumber := 0,
    gpuCompositionDoneFence := 0, compositorTiming := 0, refreshStartTime := 0,
    dequeueReadyTime := 0, previousReleaseCallbackId := 0 }

/-- A concrete dispatcher state holding one never-latched transaction for
listener `0`, ready for delivery. -/
def stC2 : InvokerState :=
  { registering := [], completed := [(0, [mkTransactionStats [cidCommit 5] 0])],
    pending := [], presentFence := none, linked := [0], nextSeq := 1 }

/-- A concrete latched transaction with an on-complete front. -/
def tC3 : TransactionStats :=
  { callbackIds := [cidComplete 4], latchTime := 5, presentFence := none,
    surfaceStats := [], seq := 0 }

/-- A concrete dispatcher state holding `tC3` with the presentation signal
set to fence `9`. -/
def stC3 : InvokerState :=
  { registering := [], completed := [(0, [tC3])], pending := [],
    presentFence := some 9, linked := [0], nextSeq := 1 }

/-- A concrete dispatcher state with a pending count of `2` recorded for the
single tracked transaction of listener `1`. -/
def stC7 : InvokerState :=
  { registering := [], completed := [(1, [mkTransactionStats [cidComplete 3] 0])],
    pending := [(1, [([cidComplete 3], 2)])], presentFence := none,
    linked := [1], nextSeq := 1 }

/-- A concrete handle matching the transaction tracked in `stC7`, with a
live weak reference and latch time `10`. -/
def hC7 : CallbackHandle := sampleHandle 1 [cidComplete 3] (some 4) 10

/-- The deque tracked for listener `1` in `stC7`. -/
def dqC7 : List TransactionStats := [mkTransactionStats [cidComplete 3] 0]

/-- `dqC7` after folding `hC7` into its only record. -/
def dqC7F : List TransactionStats :=
  [foldHandle hC7 [] (mkTransactionStats [cidComplete 3] 0)]

/- ## Shared helper lemmas -/

theorem alistFind_set_self {α β : Type} [DecidableEq α] (m : List (α × β))
    (k : α) (v : β) : alistFind (alistSet m k v) k = some v := by
  induction m with
  | nil => simp [alistSet, alistFind]
  | cons p rest ih =>
    obtain ⟨a, b⟩ := p
    by_cases h : a = k <;> simp [alistSet, alistFind, h, ih]

theorem alistFind_set_ne {α β : Type} [DecidableEq α] (m : List (α × β))
    (k k' : α) (v : β) (h : k' ≠ k) :
    alistFind (alistSet m k v) k' = alistFind m k' := by
  have hk : k ≠ k' := Ne.symm h
  induction m with
  | nil => simp [alistSet, alistFind, hk]
  | cons p rest ih =>
    obtain ⟨a, b⟩ := p
    by_cases ha : a = k
    · subst ha
      simp [alistSet, alistFind, hk]
    · simp [alistSet, alistFind, ha, ih]

theorem alistFind_eq_none_iff {α β : Type} [DecidableEq α]
    (m : List (α × β)) (k : α) :
    alistFind m k = none ↔ k ∉ m.map Prod.fst := by
  induction m with
  | nil => simp [alistFind]
  | cons p rest ih =>
    obtain ⟨a, b⟩ := p
    by_cases h : a = k
    · subst h
      simp [alistFind]
    · simp only [alistFind, h, if_false, List.map_cons, List.mem_cons, ih]
      have : ¬k = a := fun hk => h hk.symm
      tauto

theorem alistFind_append {α β : Type} [DecidableEq α]
    (m n : List (α × β)) (k : α) :
    alistFind (m ++ n) k =
      match alistFind m k with
      | some v => some v
      | none => alistFind n k := by
  induction m with
  | nil => simp [alistFind]
  | cons p rest ih =>
    obtain ⟨a, b⟩ := p
    by_cases h : a = k <;> simp [alistFind, h, ih]

theorem alistSet_map_fst_of_mem {α β : Type} [DecidableEq α]
    (m : List (α × β)) (k : α) (v : β) (h : k ∈ m.map Prod.fst) :
    (alistSet m k v).map Prod.fst = m.map Prod.fst := by
  induction m with
  | nil => simp at h
  | cons p rest ih =>
    obtain ⟨a, b⟩ := p
    by_cases ha : a = k
    · simp [alistSet, ha]
    · simp only [List.map_cons, List.mem_cons] at h
      rcases h with h | h
      · exact absurd h.symm ha
      · simp [alistSet, ha, ih h]

theorem alistSet_map_fst_of_not_mem {α β : Type} [DecidableEq α]
    (m : List (α × β)) (k : α) (v : β) (h : k ∉ m.map Prod.fst) :
    (alistSet m k v).map Prod.fst = m.map Prod.fst ++ [k] := by
  induction m with
  | nil => simp [alistSet]
  | cons p rest ih =>
    obtain ⟨a, b⟩ := p
    simp only [List.map_cons, List.mem_cons] at h
    push_neg at h
    have ha : a ≠ k := fun hak => h.1 hak.symm
    simp [alistSet, ha, ih h.2]

theorem alistFind_erase_self {α β : Type} [DecidableEq α]
    (m : List (α × β)) (k : α) (hnd : (m.map Prod.fst).Nodup) :
    alistFind (alistErase m k) k = none := by
  induction m with
  | nil => simp [alistErase, alistFind]
  | cons p rest ih =>
    obtain ⟨a, b⟩ := p
    simp only [List.map_cons, List.nodup_cons] at hnd
    by_cases ha : a = k
    · subst ha
      have : alistFind rest a = none := by
        rw [alistFind_eq_none_iff]
        exact hnd.1
      simpa [alistErase] using this
    · simp [alistErase, alistFind, ha, ih hnd.2]

theorem alistFind_erase_ne {α β : Type} [DecidableEq α]
    (m : List (α × β)) (k k' : α) (h : k' ≠ k) :
    alistFind (alistErase m k) k' = alistFind m k' := by
  have hk : k ≠ k' := Ne.symm h
  induction m with
  | nil => simp [alistErase]
  | cons p rest ih =>
    obtain ⟨a, b⟩ := p
    by_cases ha : a = k
    · subst ha
      simp [alistErase, alistFind, hk]
    · simp [alistErase, alistFind, ha, ih]

theorem alistTouch_of_isSome {α β : Type} [DecidableEq α]
    (m : List (α × β)) (k : α) (d : β) (h : (alistFind m k).isSome) :
    alistTouch m k d = m := by
  unfold alistTouch
  cases hm : alistFind m k with
  | none => rw [hm] at h; simp at h
  | some v => rfl

theorem alistTouch_of_none {α β : Type} [DecidableEq α]
    (m : List (α × β)) (k : α) (d : β) (h : alistFind m k = none) :
    alistTouch m k d = m ++ [(k, d)] := by
  unfold alistTouch
  rw [h]

theorem applyFence_seq (fence : Option Fence) (t : TransactionStats) :
    (applyFence fence t).seq = t.seq := by
  unfold applyFence
  split <;> rfl

theorem applyFence_latchTime (fence : Option Fence) (t : TransactionStats) :
    (applyFence fence t).latchTime = t.latchTime := by
  unfold applyFence
  split <;> rfl

theorem applyFence_callbackIds (fence : Option Fence) (t : TransactionStats) :
    (applyFence fence t).callbackIds = t.callbackIds := by
  unfold applyFence
  split <;> rfl

theorem walkDeque_nil (reg : RegSet) (pend : PendingMap)
    (fence : Option Fence) (l : Listener) :
    walkDeque reg pend fence l [] = ([], []) := rfl

theorem walkDeque_cons_reg (reg : RegSet) (pend : PendingMap)
    (fence : Option Fence) (l : Listener) (t : TransactionStats)
    (rest : List TransactionStats)
    (hr : isRegisteringTransaction reg l t.callbackIds = true) :
    walkDeque reg pend fence l (t :: rest) = ([], t :: rest) := by
  simp [walkDeque, hr]

theorem walkDeque_cons_pend (reg : RegSet) (pend : PendingMap)
    (fence : Option Fence) (l : Listener) (t : TransactionStats)
    (rest : List TransactionStats)
    (hr : isRegisteringTransaction reg l t.callbackIds = false)
    (hp : hasPendingCallbacks pend l t.callbackIds = true) :
    walkDeque reg pend fence l (t :: rest) = ([], t :: rest) := by
  simp [walkDeque, hr, hp]

theorem walkDeque_cons_nofence (reg : RegSet) (pend : PendingMap)
    (l : Listener) (t : TransactionStats) (rest : List TransactionStats)
    (hr : isRegisteringTransaction reg l t.callbackIds = false)
    (hp : hasPendingCallbacks pend l t.callbackIds = false)
    (hg : 0 ≤ t.latchTime ∧ containsOnCommitCallbacks t.callbackIds = false) :
    walkDeque reg pend none l (t :: rest) = ([], t :: rest) := by
  simp [walkDeque, hr, hp, hg]

theorem walkDeque_cons_fence (reg : RegSet) (pend : PendingMap)
    (l : Listener) (t : TransactionStats) (rest : List TransactionStats)
    (f : Fence)
    (hr : isRegisteringTransaction reg l t.callbackIds = false)
    (hp : hasPendingCallbacks pend l t.callbackIds = false)
    (hg : 0 ≤ t.latchTime ∧ containsOnCommitCallbacks t.callbackIds = false) :
    walkDeque reg pend (some f) l (t :: rest) =
      ({ t with presentFence := some f } ::
        (walkDeque reg pend (some f) l rest).1,
       (walkDeque reg pend (some f) l rest).2) := by
  simp [walkDeque, hr, hp, hg]

theorem walkDeque_cons_pass (reg : RegSet) (pend : PendingMap)
    (fence : Option Fence) (l : Listener) (t : TransactionStats)
    (rest : List TransactionStats)
    (hr : isRegisteringTransaction reg l t.callbackIds = false)
    (hp : hasPendingCallbacks pend l t.callbackIds = false)
    (hg : ¬(0 ≤ t.latchTime ∧ containsOnCommitCallbacks t.callbackIds = false)) :
    walkDeque reg pend fence l (t :: rest) =
      (t :: (walkDeque reg pend fence l rest).1,
       (walkDeque reg pend fence l rest).2) := by
  simp [walkDeque, hr, hp, hg]

/-- The inner loop of `sendCallbacks` moves exactly a prefix of the deque to
the batch (with the cycle's fence attached where required), every moved
transaction passes the three delivery checks, and the walk stops at the
first transaction that fails one. -/
theorem walkDeque_spec (reg : RegSet) (pend : PendingMap)
    (fence : Option Fence) (l : Listener) (dq : List TransactionStats) :
    ∃ n, n ≤ dq.length ∧
      (walkDeque reg pend fence l dq).1 = (dq.take n).map (applyFence fence) ∧
      (walkDeque reg pend fence l dq).2 = dq.drop n ∧
      (∀ t ∈ dq.take n, deliverable reg pend fence l t = true) ∧
      (∀ t, (dq.drop n).head? = some t →
        deliverable reg pend fence l t = false) := by
  induction dq with
  | nil => exact ⟨0, by simp [walkDeque_nil]⟩
  | cons t rest ih =>
    by_cases hr : isRegisteringTransaction reg l t.callbackIds = true
    · refine ⟨0, Nat.zero_le _, ?_, ?_, ?_, ?_⟩ <;>
        simp [walkDeque_cons_reg reg pend fence l t rest hr, deliverable, hr]
    · rw [Bool.not_eq_true] at hr
      by_cases hp : hasPendingCallbacks pend l t.callbackIds = true
      · refine ⟨0, Nat.zero_le _, ?_, ?_, ?_, ?_⟩ <;>
          simp [walkDeque_cons_pend reg pend fence l t rest hr hp,
            deliverable, hr, hp]
      · rw [Bool.not_eq_true] at hp
        by_cases hg : 0 ≤ t.latchTime ∧
            containsOnCommitCallbacks t.callbackIds = false
        · cases hf : fence with
          | none =>
            subst hf
            refine ⟨0, Nat.zero_le _, ?_, ?_, ?_, ?_⟩ <;>
              simp [walkDeque_cons_nofence reg pend l t rest hr hp hg,
                deliverable, hr, hp, hg.1, hg.2]
          | some f =>
            subst hf
            obtain ⟨n, hn, hb, hd, hall, hhd⟩ := ih
            refine ⟨n + 1, Nat.succ_le_succ hn, ?_, ?_, ?_, ?_⟩
            · rw [walkDeque_cons_fence reg pend l t rest f hr hp hg]
              simp only [List.take_succ_cons, List.map_cons, hb]
              congr 1
              unfold applyFence
              rw [if_pos hg]
            · rw [walkDeque_cons_fence reg pend l t rest f hr hp hg]
              simpa using hd
            · intro u hu
              rcases List.mem_cons.mp (by simpa using hu) with h | h
              · subst h
                simp [deliverable, hr, hp]
              · exact hall u h
            · intro u hu
              exact hhd u (by simpa using hu)
        · obtain ⟨n, hn, hb, hd, hall, hhd⟩ := ih
          refine ⟨n + 1, Nat.succ_le_succ hn, ?_, ?_, ?_, ?_⟩
          · rw [walkDeque_cons_pass reg pend fence l t rest hr hp hg]
            simp only [List.take_succ_cons, List.map_cons, hb]
            congr 1
            unfold applyFence
            rw [if_neg hg]
          · rw [walkDeque_cons_pass reg pend fence l t rest hr hp hg]
            simpa using hd
          · intro u hu
            rcases List.mem_cons.mp (by simpa using hu) with h | h
            · subst h
              rcases Decidable.not_and_iff_or_not.mp hg with h' | h'
              · simp [deliverable, hr, hp, h']
              · rw [Bool.not_eq_false] at h'
                simp [deliverable, hr, hp, h']
            · exact hall u h
          · intro u hu
            exact hhd u (by simpa using hu)

theorem walkDeque_fst_empty (reg : RegSet) (pend : PendingMap)
    (fence : Option Fence) (l : Listener) (dq : List TransactionStats)
    (h : (walkDeque reg pend fence l dq).1 = []) :
    (walkDeque reg pend fence l dq).2 = dq := by
  obtain ⟨n, _, hb, hd, _, _⟩ := walkDeque_spec reg pend fence l dq
  rw [hb] at h
  have htk : dq.take n = [] := by
    cases htk : dq.take n with
    | nil => rfl
    | cons a as => rw [htk] at h; simp at h
  rw [hd]
  rcases List.take_eq_nil_iff.mp htk with h0 | h0
  · subst h0; simp
  · subst h0; simp

theorem sendLoop_nil (reg : RegSet) (pend : PendingMap)
    (fence : Option Fence) (alive : Listener → Bool) :
    sendLoop reg pend fence alive [] = ([], [], []) := rfl

theorem sendLoop_cons_keep (reg : RegSet) (pend : PendingMap)
    (fence : Option Fence) (alive : Listener → Bool) (k : Listener)
    (dq : List TransactionStats) (rest : CompletedMap)
    (h1 : (walkDeque reg pend fence k dq).1.isEmpty = true) :
    sendLoop reg pend fence alive ((k, dq) :: rest) =
      ((k, (walkDeque reg pend fence k dq).2) ::
        (sendLoop reg pend fence alive rest).1,
       (sendLoop reg pend fence alive rest).2.1,
       (sendLoop reg pend fence alive rest).2.2) := by
  simp [sendLoop, h1]

theorem sendLoop_cons_deliver_erase (reg : RegSet) (pend : PendingMap)
    (fence : Option Fence) (alive : Listener → Bool) (k : Listener)
    (dq : List TransactionStats) (rest : CompletedMap)
    (h1 : (walkDeque reg pend fence k dq).1.isEmpty = false)
    (h2 : alive k = true)
    (h3 : (walkDeque reg pend fence k dq).2.isEmpty = true) :
    sendLoop reg pend fence alive ((k, dq) :: rest) =
      ((sendLoop reg pend fence alive rest).1,
       (k, (walkDeque reg pend fence k dq).1) ::
         (sendLoop reg pend fence alive rest).2.1,
       k :: (sendLoop reg pend fence alive rest).2.2) := by
  simp [sendLoop, h1, h2, h3]

theorem sendLoop_cons_deliver_keep (reg : RegSet) (pend : PendingMap)
    (fence : Option Fence) (alive : Listener → Bool) (k : Listener)
    (dq : List TransactionStats) (rest : CompletedMap)
    (h1 : (walkDeque reg pend fence k dq).1.isEmpty = false)
    (h2 : alive k = true)
    (h3 : (walkDeque reg pend fence k dq).2.isEmpty = false) :
    sendLoop reg pend fence alive ((k, dq) :: rest) =
      ((k, (walkDeque reg pend fence k dq).2) ::
        (sendLoop reg pend fence alive rest).1,
       (k, (walkDeque reg pend fence k dq).1) ::
         (sendLoop reg pend fence alive rest).2.1,
       (sendLoop reg pend fence alive rest).2.2) := by
  simp [sendLoop, h1, h2, h3]

theorem sendLoop_cons_dead (reg : RegSet) (pend : PendingMap)
    (fence : Option Fence) (alive : Listener → Bool) (k : Listener)
    (dq : List TransactionStats) (rest : CompletedMap)
    (h1 : (walkDeque reg pend fence k dq).1.isEmpty = false)
    (h2 : alive k = false) :
    sendLoop reg pend fence alive ((k, dq) :: rest) =
      sendLoop reg pend fence alive rest := by
  simp [sendLoop, h1, h2]

theorem sendLoop_mem_deliveries (reg : RegSet) (pend : PendingMap)
    (fence : Option Fence) (alive : Listener → Bool) (m : CompletedMap)
    (l : Listener) (batch : List TransactionStats)
    (h : (l, batch) ∈ (sendLoop reg pend fence alive m).2.1) :
    ∃ dq, (l, dq) ∈ m ∧ alive l = true ∧
      batch = (walkDeque reg pend fence l dq).1 ∧ batch ≠ [] := by
  induction m with
  | nil => simp [sendLoop_nil] at h
  | cons p rest ih =>
    obtain ⟨k, dq⟩ := p
    by_cases h1 : (walkDeque reg pend fence k dq).1.isEmpty = true
    · rw [sendLoop_cons_keep reg pend fence alive k dq rest h1] at h
      obtain ⟨dq', hmem, ha, hb, hne⟩ := ih h
      exact ⟨dq', List.mem_cons_of_mem _ hmem, ha, hb, hne⟩
    · rw [Bool.not_eq_true] at h1
      have hbne : (walkDeque reg pend fence k dq).1 ≠ [] := by
        intro hc
        rw [hc] at h1
        simp at h1
      by_cases h2 : alive k = true
      · by_cases h3 : (walkDeque reg pend fence k dq).2.isEmpty = true
        · rw [sendLoop_cons_deliver_erase reg pend fence alive k dq rest
            h1 h2 h3] at h
          rcases List.mem_cons.mp h with hh | hh
          · have hl : l = k := congrArg Prod.fst hh
            have hbatch : batch = (walkDeque reg pend fence k dq).1 :=
              congrArg Prod.snd hh
            subst hl
            exact ⟨dq, List.mem_cons_self _ _, h2, hbatch, hbatch ▸ hbne⟩
          · obtain ⟨dq', hmem, ha, hb, hne⟩ := ih hh
            exact ⟨dq', List.mem_cons_of_mem _ hmem, ha, hb, hne⟩
        · rw [Bool.not_eq_true] at h3
          rw [sendLoop_cons_deliver_keep reg pend fence alive k dq rest
            h1 h2 h3] at h
          rcases List.mem_cons.mp h with hh | hh
          · have hl : l = k := congrArg Prod.fst hh
            have hbatch : batch = (walkDeque reg pend fence k dq).1 :=
              congrArg Prod.snd hh
            subst hl
            exact ⟨dq, List.mem_cons_self _ _, h2, hbatch, hbatch ▸ hbne⟩
          · obtain ⟨dq', hmem, ha, hb, hne⟩ := ih hh
            exact ⟨dq', List.mem_cons_of_mem _ hmem, ha, hb, hne⟩
      · rw [Bool.not_eq_true] at h2
        rw [sendLoop_cons_dead reg pend fence alive k dq rest h1 h2] at h
        obtain ⟨dq', hmem, ha, hb, hne⟩ := ih h
        exact ⟨dq', List.mem_cons_of_mem _ hmem, ha, hb, hne⟩

theorem sendLoop_keys_sublist (reg : RegSet) (pend : PendingMap)
    (fence : Option Fence) (alive : Listener → Bool) (m : CompletedMap) :
    ((sendLoop reg pend fence alive m).1.map Prod.fst).Sublist
      (m.map Prod.fst) := by
  induction m with
  | nil => simp [sendLoop_nil]
  | cons p rest ih =>
    obtain ⟨k, dq⟩ := p
    by_cases h1 : (walkDeque reg pend fence k dq).1.isEmpty = true
    · rw [sendLoop_cons_keep reg pend fence alive k dq rest h1]
      simpa using ih.cons₂ k
    · rw [Bool.not_eq_true] at h1
      by_cases h2 : alive k = true
      · by_cases h3 : (walkDeque reg pend fence k dq).2.isEmpty = true
        · rw [sendLoop_cons_deliver_erase reg pend fence alive k dq rest h1 h2 h3]
          simpa using ih.cons k
        · rw [Bool.not_eq_true] at h3
          rw [sendLoop_cons_deliver_keep reg pend fence alive k dq rest h1 h2 h3]
          simpa using ih.cons₂ k
      · rw [Bool.not_eq_true] at h2
        rw [sendLoop_cons_dead reg pend fence alive k dq rest h1 h2]
        exact ih.cons k

theorem sendLoop_unlinked_mem (reg : RegSet) (pend : PendingMap)
    (fence : Option Fence) (alive : Listener → Bool) (m : CompletedMap)
    (l : Listener) (h : l ∈ (sendLoop reg pend fence alive m).2.2) :
    l ∈ m.map Prod.fst := by
  induction m with
  | nil => simp [sendLoop_nil] at h
  | cons p rest ih =>
    obtain ⟨k, dq⟩ := p
    by_cases h1 : (walkDeque reg pend fence k dq).1.isEmpty = true
    · rw [sendLoop_cons_keep reg pend fence alive k dq rest h1] at h
      exact List.mem_cons_of_mem _ (ih h)
    · rw [Bool.not_eq_true] at h1
      by_cases h2 : alive k = true
      · by_cases h3 : (walkDeque reg pend fence k dq).2.isEmpty = true
        · rw [sendLoop_cons_deliver_erase reg pend fence alive k dq rest
            h1 h2 h3] at h
          rcases List.mem_cons.mp h with hh | hh
          · subst hh; exact List.mem_cons_self _ _
          · exact List.mem_cons_of_mem _ (ih hh)
        · rw [Bool.not_eq_true] at h3
          rw [sendLoop_cons_deliver_keep reg pend fence alive k dq rest
            h1 h2 h3] at h
          exact List.mem_cons_of_mem _ (ih h)
      · rw [Bool.not_eq_true] at h2
        rw [sendLoop_cons_dead reg pend fence alive k dq rest h1 h2] at h
        exact List.mem_cons_of_mem _ (ih h)

theorem deliveredTo_cons_eq (l : Listener) (batch : List TransactionStats)
    (ds : List Delivery) :
    deliveredTo ((l, batch) :: ds) l = batch :: deliveredTo ds l := by
  simp [deliveredTo]

theorem deliveredTo_cons_ne (k l : Listener) (batch : List TransactionStats)
    (ds : List Delivery) (h : l ≠ k) :
    deliveredTo ((k, batch) :: ds) l = deliveredTo ds l := by
  have : k ≠ l := Ne.symm h
  simp [deliveredTo, this]

theorem deliveredTo_eq_nil (ds : List Delivery) (l : Listener)
    (h : ∀ b, (l, b) ∉ ds) : deliveredTo ds l = [] := by
  induction ds with
  | nil => rfl
  | cons d rest ih =>
    obtain ⟨k, b⟩ := d
    have hk : l ≠ k := by
      intro hc
      subst hc
      exact h b (List.mem_cons_self _ _)
    rw [deliveredTo_cons_ne k l b rest hk]
    exact ih (fun b' hb' => h b' (List.mem_cons_of_mem _ hb'))

theorem sendLoop_deliveredTo_nil (reg : RegSet) (pend : PendingMap)
    (fence : Option Fence) (alive : Listener → Bool) (m : CompletedMap)
    (l : Listener) (h : l ∉ m.map Prod.fst) :
    deliveredTo (sendLoop reg pend fence alive m).2.1 l = [] := by
  apply deliveredTo_eq_nil
  intro b hb
  obtain ⟨dq, hm, _, _, _⟩ := sendLoop_mem_deliveries reg pend fence alive m l b hb
  exact h (List.mem_map.mpr ⟨(l, dq), hm, rfl⟩)

theorem sendLoop_cons_other (reg : RegSet) (pend : PendingMap)
    (fence : Option Fence) (alive : Listener → Bool) (k : Listener)
    (dq0 : List TransactionStats) (rest : CompletedMap) (l : Listener)
    (hlk : l ≠ k) :
    alistFind (sendLoop reg pend fence alive ((k, dq0) :: rest)).1 l =
      alistFind (sendLoop reg pend fence alive rest).1 l ∧
    (l ∈ (sendLoop reg pend fence alive ((k, dq0) :: rest)).2.2 ↔
      l ∈ (sendLoop reg pend fence alive rest).2.2) ∧
    deliveredTo (sendLoop reg pend fence alive ((k, dq0) :: rest)).2.1 l =
      deliveredTo (sendLoop reg pend fence alive rest).2.1 l := by
  have hkl : k ≠ l := Ne.symm hlk
  by_cases h1 : (walkDeque reg pend fence k dq0).1.isEmpty = true
  · rw [sendLoop_cons_keep reg pend fence alive k dq0 rest h1]
    exact ⟨by simp [alistFind, hkl], Iff.rfl, rfl⟩
  · rw [Bool.not_eq_true] at h1
    by_cases h2 : alive k = true
    · by_cases h3 : (walkDeque reg pend fence k dq0).2.isEmpty = true
      · rw [sendLoop_cons_deliver_erase reg pend fence alive k dq0 rest h1 h2 h3]
        refine ⟨rfl, by simp [hlk], ?_⟩
        exact deliveredTo_cons_ne k l _ _ hlk
      · rw [Bool.not_eq_true] at h3
        rw [sendLoop_cons_deliver_keep reg pend fence alive k dq0 rest h1 h2 h3]
        refine ⟨by simp [alistFind, hkl], Iff.rfl, ?_⟩
        exact deliveredTo_cons_ne k l _ _ hlk
    · rw [Bool.not_eq_true] at h2
      rw [sendLoop_cons_dead reg pend fence alive k dq0 rest h1 h2]
      exact ⟨rfl, Iff.rfl, rfl⟩

/-- How one dispatch cycle treats the entry of listener `l`: kept untouched
when its batch is empty; delivered, erased and unlinked when the batch is
non-empty, the listener alive and the deque emptied; delivered and kept when
the deque did not empty; silently erased (no delivery, no unlink) when the
listener is dead. -/
theorem sendLoop_entry (reg : RegSet) (pend : PendingMap)
    (fence : Option Fence) (alive : Listener → Bool) (m : CompletedMap)
    (hnd : (m.map Prod.fst).Nodup) (l : Listener)
    (dq : List TransactionStats) (hmem : (l, dq) ∈ m) :
    ((walkDeque reg pend fence l dq).1 = [] →
      alistFind (sendLoop reg pend fence alive m).1 l =
        some (walkDeque reg pend fence l dq).2 ∧
      l ∉ (sendLoop reg pend fence alive m).2.2 ∧
      deliveredTo (sendLoop reg pend fence alive m).2.1 l = []) ∧
    ((walkDeque reg pend fence l dq).1 ≠ [] → alive l = true →
      (walkDeque reg pend fence l dq).2 = [] →
      alistFind (sendLoop reg pend fence alive m).1 l = none ∧
      l ∈ (sendLoop reg pend fence alive m).2.2 ∧
      deliveredTo (sendLoop reg pend fence alive m).2.1 l =
        [(walkDeque reg pend fence l dq).1]) ∧
    ((walkDeque reg pend fence l dq).1 ≠ [] → alive l = true →
      (walkDeque reg pend fence l dq).2 ≠ [] →
      alistFind (sendLoop reg pend fence alive m).1 l =
        some (walkDeque reg pend fence l dq).2 ∧
      l ∉ (sendLoop reg pend fence alive m).2.2 ∧
      deliveredTo (sendLoop reg pend fence alive m).2.1 l =
        [(walkDeque reg pend fence l dq).1]) ∧
    ((walkDeque reg pend fence l dq).1 ≠ [] → alive l = false →
      alistFind (sendLoop reg pend fence alive m).1 l = none ∧
      l ∉ (sendLoop reg pend fence alive m).2.2 ∧
      deliveredTo (sendLoop reg pend fence alive m).2.1 l = []) := by
  induction m with
  | nil => simp at hmem
  | cons p rest ih =>
    obtain ⟨k, dq0⟩ := p
    simp only [List.map_cons, List.nodup_cons] at hnd
    rcases List.mem_cons.mp hmem with hh | hh
    · obtain ⟨rfl, rfl⟩ : l = k ∧ dq = dq0 :=
        ⟨congrArg Prod.fst hh, congrArg Prod.snd hh⟩
      have hnotin : l ∉ rest.map Prod.fst := hnd.1
      have hfind : alistFind (sendLoop reg pend fence alive rest).1 l = none := by
        rw [alistFind_eq_none_iff]
        intro hc
        exact hnotin ((sendLoop_keys_sublist reg pend fence alive rest).subset hc)
      have hunl : l ∉ (sendLoop reg pend fence alive rest).2.2 :=
        fun hc => hnotin (sendLoop_unlinked_mem reg pend fence alive rest l hc)
      have hdel : deliveredTo (sendLoop reg pend fence alive rest).2.1 l = [] :=
        sendLoop_deliveredTo_nil reg pend fence alive rest l hnotin
      refine ⟨?_, ?_, ?_, ?_⟩
      · intro hw
        have h1 : (walkDeque reg pend fence l dq).1.isEmpty = true := by
          rw [hw]; rfl
        rw [sendLoop_cons_keep reg pend fence alive l dq rest h1]
        refine ⟨by simp [alistFind], hunl, hdel⟩
      · intro hw ha hw2
        have h1 : (walkDeque reg pend fence l dq).1.isEmpty = false := by
          cases hc : (walkDeque reg pend fence l dq).1 with
          | nil => exact absurd hc hw
          | cons a as => rfl
        have h3 : (walkDeque reg pend fence l dq).2.isEmpty = true := by
          rw [hw2]; rfl
        rw [sendLoop_cons_deliver_erase reg pend fence alive l dq rest h1 ha h3]
        refine ⟨hfind, List.mem_cons_self _ _, ?_⟩
        rw [deliveredTo_cons_eq, hdel]
      · intro hw ha hw2
        have h1 : (walkDeque reg pend fence l dq).1.isEmpty = false := by
          cases hc : (walkDeque reg pend fence l dq).1 with
          | nil => exact absurd hc hw
          | cons a as => rfl
        have h3 : (walkDeque reg pend fence l dq).2.isEmpty = false := by
          cases hc : (walkDeque reg pend fence l dq).2 with
          | nil => exact absurd hc hw2
          | cons a as => rfl
        rw [sendLoop_cons_deliver_keep reg pend fence alive l dq rest h1 ha h3]
        refine ⟨by simp [alistFind], hunl, ?_⟩
        rw [deliveredTo_cons_eq, hdel]
      · intro hw ha
        have h1 : (walkDeque reg pend fence l dq).1.isEmpty = false := by
          cases hc : (walkDeque reg pend fence l dq).1 with
          | nil => exact absurd hc hw
          | cons a as => rfl
        rw [sendLoop_cons_dead reg pend fence alive l dq rest h1 ha]
        exact ⟨hfind, hunl, hdel⟩
    · have hlk : l ≠ k := by
        intro hc
        subst hc
        exact hnd.1 (List.mem_map.mpr ⟨(l, dq), hh, rfl⟩)
      obtain ⟨e1, e2, e3⟩ :=
        sendLoop_cons_other reg pend fence alive k dq0 rest l hlk
      obtain ⟨c1, c2, c3, c4⟩ := ih hnd.2 hh
      refine ⟨?_, ?_, ?_, ?_⟩
      · intro hw
        obtain ⟨f1, f2, f3⟩ := c1 hw
        exact ⟨e1.trans f1, fun hc => f2 (e2.mp hc), e3.trans f3⟩
      · intro hw ha hw2
        obtain ⟨f1, f2, f3⟩ := c2 hw ha hw2
        exact ⟨e1.trans f1, e2.mpr f2, e3.trans f3⟩
      · intro hw ha hw2
        obtain ⟨f1, f2, f3⟩ := c3 hw ha hw2
        exact ⟨e1.trans f1, fun hc => f2 (e2.mp hc), e3.trans f3⟩
      · intro hw ha
        obtain ⟨f1, f2, f3⟩ := c4 hw ha
        exact ⟨e1.trans f1, fun hc => f2 (e2.mp hc), e3.trans f3⟩

/- ## Claim C2: no delivery while registering or pending; walk stops at the
first blocked transaction -/

/-- **C2.** In any dispatch cycle, every batch delivered to a listener is a
front prefix of that listener's deque (with the cycle's fence applied);
every transaction in it passes the registration-closed and nothing-pending
checks of the pre-cycle state; and if the `i`-th queued transaction is still
registering or still pending, the prefix stops no later than `i`, so no
later transaction of that listener is delivered in the cycle. -/
theorem tci_C2 (s : InvokerState) (alive : Listener → Bool) (l : Listener)
    (batch : List TransactionStats)
    (hmem : (l, batch) ∈ (sendCallbacks alive s).2) :
    ∃ dq n, (l, dq) ∈ s.completed ∧ n ≤ dq.length ∧
      batch = (dq.take n).map (applyFence s.presentFence) ∧
      (∀ t ∈ dq.take n,
        isRegisteringTransaction s.registering l t.callbackIds = false ∧
        hasPendingCallbacks s.pending l t.callbackIds = false) ∧
      (∀ pre t post, dq = pre ++ t :: post →
        (isRegisteringTransaction s.registering l t.callbackIds = true ∨
         hasPendingCallbacks s.pending l t.callbackIds = true) →
        n ≤ pre.length) := by
  have hmem' : (l, batch) ∈
      (sendLoop s.registering s.pending s.presentFence alive s.completed).2.1 :=
    hmem
  obtain ⟨dq, hdq, _, hb, _⟩ :=
    sendLoop_mem_deliveries s.registering s.pending s.presentFence alive
      s.completed l batch hmem'
  obtain ⟨n, hn, hwb, _, hall, _⟩ :=
    walkDeque_spec s.registering s.pending s.presentFence l dq
  refine ⟨dq, n, hdq, hn, by rw [hb, hwb], ?_, ?_⟩
  · intro t ht
    have hdel := hall t ht
    simp only [deliverable, Bool.and_eq_true, Bool.not_eq_true'] at hdel
    exact ⟨hdel.1.1, hdel.1.2⟩
  · intro pre t post hsplit hbad
    by_contra hcon
    push_neg at hcon
    have hti : t ∈ dq.take n := by
      rw [hsplit, List.take_append_eq_append_take]
      refine List.mem_append_right _ ?_
      have : 1 ≤ n - pre.length := by omega
      cases hnp : n - pre.length with
      | zero => omega
      | succ m => simp [List.take_succ_cons]
    have hdel := hall t hti
    simp only [deliverable, Bool.and_eq_true, Bool.not_eq_true'] at hdel
    rcases hbad with hbad | hbad
    · rw [hdel.1.1] at hbad
      exact Bool.false_ne_true hbad
    · rw [hdel.1.2] at hbad
      exact Bool.false_ne_true hbad

/-- Witness for C2: in the concrete state `stC2` the single transaction of
listener `0` is delivered as the (whole-deque) prefix. -/
theorem tci_C2_witness :
    ∃ dq n, ((0 : Listener), dq) ∈ stC2.completed ∧ n ≤ dq.length ∧
      [mkTransactionStats [cidCommit 5] 0] =
        (dq.take n).map (applyFence stC2.presentFence) ∧
      (∀ t ∈ dq.take n,
        isRegisteringTransaction stC2.registering 0 t.callbackIds = false ∧
        hasPendingCallbacks stC2.pending 0 t.callbackIds = false) ∧
      (∀ pre t post, dq = pre ++ t :: post →
        (isRegisteringTransaction stC2.registering 0 t.callbackIds = true ∨
         hasPendingCallbacks stC2.pending 0 t.callbackIds = true) →
        n ≤ pre.length) :=
  tci_C2 stC2 (fun _ => true) 0 [mkTransactionStats [cidCommit 5] 0] (by decide)

theorem sendCallbacks_eq (alive : Listener → Bool) (s : InvokerState) :
    sendCallbacks alive s =
      ({ s with
          completed :=
            (sendLoop s.registering s.pending s.presentFence alive s.completed).1,
          presentFence := none,
          linked := s.linked.filter (fun x =>
            !decide (x ∈ (sendLoop s.registering s.pending s.presentFence alive
              s.completed).2.2)) },
       (sendLoop s.registering s.pending s.presentFence alive s.completed).2.1) :=
  rfl

/- ## Claim C3: presentation gating is decided by the front callback id -/

/-- **C3, counterexample.**  A latched transaction whose callback set is
`[commit, complete]` — not exclusively commit-type — is delivered in a cycle
in which the presentation signal was never set, because the code inspects
only the front element (`containsOnCommitCallbacks`).  The run registers the
transaction, latches it via `finalize`, and dispatches with no
`addPresentFence`; the delivery happens with `presentFence = none`. -/
theorem tci_C3_cex :
    run [Op.start 7 [cidCommit 1, cidComplete 2],
      Op.endReg 7 [cidCommit 1, cidComplete 2],
      Op.finalize (sampleHandle 7 [cidCommit 1, cidComplete 2] (some 3) 42) [],
      Op.send (fun _ => true)] =
    some ({ registering := [], completed := [], pending := [],
            presentFence := none, linked := [], nextSeq := 1 },
      [(7, [{ callbackIds := [cidCommit 1, cidComplete 2], latchTime := 42,
              presentFence := none,
              surfaceStats := [mkSurfaceStats 3
                (sampleHandle 7 [cidCommit 1, cidComplete 2] (some 3) 42) []],
              seq := 0 }])]) := rfl

/-- **C3, amended.**  For every latched transaction whose *leading* callback
id is not commit-type, dispatch never delivers it in a cycle whose
presentation signal is unset, and attaches the signal as the present fence
when delivering; for every transaction whose leading callback id is
commit-type standing at the front of its listener's deque, the walk moves it
into the outbound batch once it is not registering and has no pending work,
independent of the presentation signal (and of whether it is latched). -/
theorem tci_C3_amended :
    (∀ (s : InvokerState) (alive : Listener → Bool) (l : Listener)
      (batch : List TransactionStats) (t : TransactionStats),
      (l, batch) ∈ (sendCallbacks alive s).2 → t ∈ batch →
      0 ≤ t.latchTime → containsOnCommitCallbacks t.callbackIds = false →
      ∃ f, s.presentFence = some f ∧ t.presentFence = some f) ∧
    (∀ (reg : RegSet) (pend : PendingMap) (fence : Option Fence)
      (l : Listener) (t : TransactionStats) (rest : List TransactionStats),
      isRegisteringTransaction reg l t.callbackIds = false →
      hasPendingCallbacks pend l t.callbackIds = false →
      containsOnCommitCallbacks t.callbackIds = true →
      walkDeque reg pend fence l (t :: rest) =
        (t :: (walkDeque reg pend fence l rest).1,
         (walkDeque reg pend fence l rest).2)) := by
  constructor
  · intro s alive l batch t hmem ht hlatch hcommit
    have hmem' : (l, batch) ∈
        (sendLoop s.registering s.pending s.presentFence alive
          s.completed).2.1 := hmem
    obtain ⟨dq, _, _, hb, _⟩ :=
      sendLoop_mem_deliveries s.registering s.pending s.presentFence alive
        s.completed l batch hmem'
    obtain ⟨n, _, hwb, _, hall, _⟩ :=
      walkDeque_spec s.registering s.pending s.presentFence l dq
    rw [hb, hwb] at ht
    obtain ⟨t0, ht0, rfl⟩ := List.mem_map.mp ht
    rw [applyFence_latchTime] at hlatch
    rw [applyFence_callbackIds] at hcommit
    have hgate : 0 ≤ t0.latchTime ∧
        containsOnCommitCallbacks t0.callbackIds = false := ⟨hlatch, hcommit⟩
    have hdel := hall t0 ht0
    simp only [deliverable, Bool.and_eq_true] at hdel
    have hsome : s.presentFence.isSome = true := by
      have h3 := hdel.2
      rw [hcommit, decide_eq_true hlatch] at h3
      simpa using h3
    obtain ⟨f, hf⟩ := Option.isSome_iff_exists.mp hsome
    refine ⟨f, hf, ?_⟩
    unfold applyFence
    rw [if_pos hgate]
    exact hf
  · intro reg pend fence l t rest hr hp hc
    have hg : ¬(0 ≤ t.latchTime ∧
        containsOnCommitCallbacks t.callbackIds = false) := by
      rintro ⟨_, hcf⟩
      rw [hc] at hcf
      exact Bool.true_eq_false.mp hcf
    exact walkDeque_cons_pass reg pend fence l t rest hr hp hg

/-- Witness for the amended C3: in `stC3` (signal set to fence `9`) the
latched on-complete transaction is delivered carrying fence `9`; and a
front-of-deque commit-type transaction is moved to the batch with no fence
available. -/
theorem tci_C3_amended_witness :
    (∃ f, stC3.presentFence = some f ∧
      ({ tC3 with presentFence := some 9 } : TransactionStats).presentFence =
        some f) ∧
    walkDeque [] [] none 0
        [{ callbackIds := [cidCommit 5], latchTime := 3, presentFence := none,
           surfaceStats := [], seq := 0 }] =
      ([{ callbackIds := [cidCommit 5], latchTime := 3, presentFence := none,
          surfaceStats := [], seq := 0 }], []) := by
  constructor
  · exact tci_C3_amended.1 stC3 (fun _ => true) 0
      [{ tC3 with presentFence := some 9 }] { tC3 with presentFence := some 9 }
      (by decide) (by decide) (by decide) (by decide)
  · have hb := tci_C3_amended.2 [] [] none 0
      { callbackIds := [cidCommit 5], latchTime := 3, presentFence := none,
        surfaceStats := [], seq := 0 } [] (by decide) (by decide) (by decide)
    simpa [walkDeque_nil] using hb

/- ## Claim C6: unlink happens only on the live-delivery path -/

/-- **C6, counterexample.**  Listener `0` registers one transaction, the
registration closes, and at dispatch time the listener is dead: the
transaction deque becomes empty (the entry is erased), yet the
death-notification subscription is *not* released — `linked` still contains
`0` after the cycle. -/
theorem tci_C6_cex :
    run [Op.start 0 [cidCommit 5], Op.endReg 0 [cidCommit 5],
      Op.send (fun _ => false)] =
    some ({ registering := [], completed := [], pending := [],
            presentFence := none, linked := [0], nextSeq := 1 }, []) := rfl

/-- **C6, amended.**  After a dispatch cycle, a listener is unlinked exactly
when it was alive, its batch was non-empty and its deque emptied; an
unlinked listener leaves the `linked` set.  A listener found dead with a
non-empty batch has its ledger entry dropped, receives no delivery, and is
*not* unlinked: its death subscription stays in place. -/
theorem tci_C6_amended (s : InvokerState) (alive : Listener → Bool)
    (hnd : (s.completed.map Prod.fst).Nodup) (l : Listener)
    (dq : List TransactionStats) (hmem : (l, dq) ∈ s.completed) :
    (l ∈ (sendLoop s.registering s.pending s.presentFence alive
        s.completed).2.2 ↔
      (alive l = true ∧
       (walkDeque s.registering s.pending s.presentFence l dq).1 ≠ [] ∧
       (walkDeque s.registering s.pending s.presentFence l dq).2 = [])) ∧
    (l ∈ (sendLoop s.registering s.pending s.presentFence alive
        s.completed).2.2 →
      l ∉ (sendCallbacks alive s).1.linked) ∧
    (alive l = false →
      (walkDeque s.registering s.pending s.presentFence l dq).1 ≠ [] →
      alistFind (sendCallbacks alive s).1.completed l = none ∧
      l ∉ (sendLoop s.registering s.pending s.presentFence alive
        s.completed).2.2 ∧
      deliveredTo (sendCallbacks alive s).2 l = [] ∧
      (l ∈ s.linked → l ∈ (sendCallbacks alive s).1.linked)) := by
  obtain ⟨c1, c2, c3, c4⟩ :=
    sendLoop_entry s.registering s.pending s.presentFence alive s.completed
      hnd l dq hmem
  refine ⟨⟨?_, ?_⟩, ?_, ?_⟩
  · intro hus
    by_cases hw : (walkDeque s.registering s.pending s.presentFence l dq).1 = []
    · exact absurd hus (c1 hw).2.1
    · by_cases ha : alive l = true
      · by_cases hw2 :
            (walkDeque s.registering s.pending s.presentFence l dq).2 = []
        · exact ⟨ha, hw, hw2⟩
        · exact absurd hus (c3 hw ha hw2).2.1
      · rw [Bool.not_eq_true] at ha
        exact absurd hus (c4 hw ha).2.1
  · rintro ⟨ha, hw, hw2⟩
    exact (c2 hw ha hw2).2.1
  · intro hus hcon
    rw [sendCallbacks_eq] at hcon
    have := (List.mem_filter.mp hcon).2
    rw [Bool.not_eq_true', decide_eq_false_iff_not] at this
    exact this hus
  · intro ha hw
    obtain ⟨f1, f2, f3⟩ := c4 hw ha
    rw [sendCallbacks_eq]
    refine ⟨f1, f2, f3, ?_⟩
    intro hlin
    refine List.mem_filter.mpr ⟨hlin, ?_⟩
    rw [Bool.not_eq_true', decide_eq_false_iff_not]
    exact f2

/-- Witness for the amended C6: in `stC2` with everyone alive, listener `0`
is unlinked (its deque emptied on delivery). -/
theorem tci_C6_amended_witness :
    ((0 : Listener) ∈ (sendLoop stC2.registering stC2.pending
        stC2.presentFence (fun _ => true) stC2.completed).2.2 ↔
      ((fun _ => true : Listener → Bool) 0 = true ∧
       (walkDeque stC2.registering stC2.pending stC2.presentFence 0
         [mkTransactionStats [cidCommit 5] 0]).1 ≠ [] ∧
       (walkDeque stC2.registering stC2.pending stC2.presentFence 0
         [mkTransactionStats [cidCommit 5] 0]).2 = [])) ∧
    ((0 : Listener) ∈ (sendLoop stC2.registering stC2.pending
        stC2.presentFence (fun _ => true) stC2.completed).2.2 →
      (0 : Listener) ∉ (sendCallbacks (fun _ => true) stC2).1.linked) ∧
    ((fun _ => true : Listener → Bool) 0 = false →
      (walkDeque stC2.registering stC2.pending stC2.presentFence 0
        [mkTransactionStats [cidCommit 5] 0]).1 ≠ [] →
      alistFind (sendCallbacks (fun _ => true) stC2).1.completed 0 = none ∧
      (0 : Listener) ∉ (sendLoop stC2.registering stC2.pending
        stC2.presentFence (fun _ => true) stC2.completed).2.2 ∧
      deliveredTo (sendCallbacks (fun _ => true) stC2).2 0 = [] ∧
      ((0 : Listener) ∈ stC2.linked →
        (0 : Listener) ∈ (sendCallbacks (fun _ => true) stC2).1.linked)) :=
  tci_C6_amended stC2 (fun _ => true) (by decide) 0
    [mkTransactionStats [cidCommit 5] 0] (by decide)

/- ## Claim C4: the callback-id comparison -/

/-- **C4, counterexample.**  `compareCallbackIds` compares only the leading
ids: a strict prefix with a tied front compares *equal* (length never breaks
ties, so the relation is not a strict total order), and two sequences whose
leading elements differ (same numeric id, different type) also compare
equal. -/
theorem tci_C4_cex :
    compareCallbackIds [cidComplete 5] [cidComplete 5, cidComplete 6] =
      some 0 ∧
    compareCallbackIds [cidCommit 5] [cidComplete 5] = some 0 :=
  ⟨rfl, rfl⟩

/-- **C4, amended.**  Two id sequences compare equal iff their leading
*numeric ids* agree (both empty, or both non-empty with equal front ids);
when both are non-empty the comparison is the difference of the front ids;
an empty `c1` against a non-empty `c2` yields `1`; a non-empty `c1` against
an empty `c2` is undefined; and length never breaks ties: any two sequences
with equal front ids compare equal regardless of length. -/
theorem tci_C4_amended (c1 c2 : List CallbackId) :
    (compareCallbackIds c1 c2 = some 0 ↔
      c1.head?.map CallbackId.id = c2.head?.map CallbackId.id) ∧
    (∀ x xs y ys, c1 = x :: xs → c2 = y :: ys →
      ∃ d, compareCallbackIds c1 c2 = some d ∧
        (0 < d ↔ y.id < x.id) ∧ (d < 0 ↔ x.id < y.id) ∧
        (d = 0 ↔ x.id = y.id)) ∧
    (c1 = [] → c2 ≠ [] → compareCallbackIds c1 c2 = some 1) ∧
    (c1.head?.map CallbackId.id = c2.head?.map CallbackId.id →
      compareCallbackIds c1 c2 = some 0) := by
  refine ⟨?_, ?_, ?_, ?_⟩
  · cases c1 with
    | nil =>
      cases c2 with
      | nil => simp [compareCallbackIds]
      | cons y ys => simp [compareCallbackIds]
    | cons x xs =>
      cases c2 with
      | nil => simp [compareCallbackIds]
      | cons y ys =>
        simp only [compareCallbackIds, List.head?_cons, Option.map_some',
          Option.some.injEq]
        omega
  · rintro x xs y ys rfl rfl
    exact ⟨x.id - y.id, rfl, by omega, by omega, by omega⟩
  · rintro rfl hne
    cases c2 with
    | nil => exact absurd rfl hne
    | cons y ys => simp [compareCallbackIds]
  · intro hheads
    cases c1 with
    | nil =>
      cases c2 with
      | nil => simp [compareCallbackIds]
      | cons y ys => simp at hheads
    | cons x xs =>
      cases c2 with
      | nil => simp at hheads
      | cons y ys =>
        simp only [List.head?_cons, Option.map_some', Option.some.injEq]
          at hheads
        simp only [compareCallbackIds, Option.some.injEq]
        omega

/-- Witness for the amended C4: the front-difference clause instantiated at
`[3]` against `[1, 9]`. -/
theorem tci_C4_amended_witness :
    ∃ d, compareCallbackIds [cidComplete 3] [cidComplete 1, cidComplete 9] =
        some d ∧
      (0 < d ↔ (cidComplete 1).id < (cidComplete 3).id) ∧
      (d < 0 ↔ (cidComplete 3).id < (cidComplete 1).id) ∧
      (d = 0 ↔ (cidComplete 3).id = (cidComplete 1).id) :=
  (tci_C4_amended [cidComplete 3] [cidComplete 1, cidComplete 9]).2.1
    (cidComplete 3) [] (cidComplete 1) [cidComplete 9] rfl rfl

/- ## Claim C10: comparing a non-empty sequence against an empty one reads
the front of the empty vector -/

/-- **C10.**  The comparison is *not* total: with `c1` non-empty and `c2`
empty the source evaluates `c2.front()` on an empty `std::vector` (undefined
behaviour; the function's own comment promises a negative result for the
"`c2` shorter" case instead), and this read is reachable through
`findTransactionStats`: a run in which the ledger holds a transaction with
non-empty ids and a work unit arrives with empty ids ends in the undefined
execution (`none`). -/
theorem tci_C10_failing_eval :
    compareCallbackIds [cidComplete 5] [] = none ∧
    run [Op.start 0 [cidCommit 5], Op.endReg 0 [cidCommit 5],
      Op.regPending (sampleHandle 0 [] none 0)] = none :=
  ⟨rfl, rfl⟩

/- ## Claim C9: startRegistration is idempotent while a registration is
open -/

/-- **C9.**  From any state in which `(listener, ids)` is not currently
registering, `startRegistration` succeeds, opens the registration and
appends exactly one ledger entry; repeating the identical call while the
registration is open succeeds and changes nothing at all. -/
theorem tci_C9 (s : InvokerState) (lc : Listener × List CallbackId)
    (h1 : lc ∉ s.registering) :
    ∃ s1, startRegistration lc s = (Stat.noError, s1) ∧
      lc ∈ s1.registering ∧
      ((alistFind s1.completed lc.1).getD []).length =
        ((alistFind s.completed lc.1).getD []).length + 1 ∧
      startRegistration lc s1 = (Stat.noError, s1) := by
  have hstep : startRegistration lc s = (Stat.noError,
      { s with
        registering := lc :: s.registering,
        completed := alistSet s.completed lc.1
          (((alistFind s.completed lc.1).getD []) ++
            [mkTransactionStats lc.2 s.nextSeq]),
        linked := if (alistFind s.completed lc.1).isNone then
          lc.1 :: s.linked else s.linked,
        nextSeq := s.nextSeq + 1 }) := by
    unfold startRegistration
    rw [if_neg h1]
  refine ⟨_, hstep, List.mem_cons_self _ _, ?_, ?_⟩
  · rw [alistFind_set_self]
    simp
  · unfold startRegistration
    rw [if_pos (List.mem_cons_self _ _)]

/-- Witness for C9: registering `(0, [commit 5])` twice on the empty
dispatcher. -/
theorem tci_C9_witness :
    ∃ s1, startRegistration (0, [cidCommit 5]) initState =
        (Stat.noError, s1) ∧
      (0, [cidCommit 5]) ∈ s1.registering ∧
      ((alistFind s1.completed 0).getD []).length =
        ((alistFind initState.completed 0).getD []).length + 1 ∧
      startRegistration (0, [cidCommit 5]) s1 = (Stat.noError, s1) :=
  tci_C9 initState (0, [cidCommit 5]) (by decide)

/- ## Claim C5: a failed registerPending is not atomic for an unseen
listener -/

/-- **C5, counterexample.**  A `registerPending` for a never-seen listener
fails with `BAD_VALUE` but leaves a default-inserted empty deque behind
(`completed = [(0, [])]`, not the empty map), and the listener's first
subsequent successful `startRegistration` therefore skips `linkToDeath`
(`linked` stays empty while a transaction is tracked). -/
theorem tci_C5_cex :
    run [Op.regPending (sampleHandle 0 [cidCommit 5] none 0)] =
      some ({ registering := [], completed := [(0, [])], pending := [],
              presentFence := none, linked := [], nextSeq := 0 }, []) ∧
    run [Op.regPending (sampleHandle 0 [cidCommit 5] none 0),
      Op.start 0 [cidCommit 5]] =
      some ({ registering := [(0, [cidCommit 5])],
              completed := [(0, [mkTransactionStats [cidCommit 5] 0])],
              pending := [], presentFence := none, linked := [],
              nextSeq := 1 }, []) :=
  ⟨rfl, rfl⟩

/-- **C5, amended.**  `registerPending` on an unresolvable handle returns
`UnknownTransaction` (`BAD_VALUE`); if the handle's listener was already in
the ledger map the state is unchanged, but if the listener had never been
seen the failed call inserts an empty deque entry for it, and every
subsequent `startRegistration` for that listener (in particular its first
successful one) skips the death-notification subscription. -/
theorem tci_C5_amended (s : InvokerState) (h : CallbackHandle) :
    (alistFind s.completed h.listener = none →
      registerPendingCallbackHandle h s =
        some (Stat.badValue,
          { s with completed := s.completed ++ [(h.listener, [])] }) ∧
      ∀ ids, (startRegistration (h.listener, ids)
          { s with completed :=
            s.completed ++ [(h.listener, [])] }).2.linked = s.linked) ∧
    (∀ dq, alistFind s.completed h.listener = some dq →
      findBack dq h.callbackIds = some none →
      registerPendingCallbackHandle h s = some (Stat.badValue, s)) := by
  constructor
  · intro h1
    have htouch : alistTouch s.completed h.listener
        ([] : List TransactionStats) = s.completed ++ [(h.listener, [])] :=
      alistTouch_of_none _ _ _ h1
    have hfind : alistFind (s.completed ++ [(h.listener, [])]) h.listener =
        some [] := by
      rw [alistFind_append, h1]
      simp [alistFind]
    constructor
    · simp only [registerPendingCallbackHandle, htouch, hfind,
        Option.getD_some]
      rfl
    · intro ids
      unfold startRegistration
      by_cases hmem : (h.listener, ids) ∈ s.registering
      · rw [if_pos hmem]
      · rw [if_neg hmem]
        simp only [hfind, Option.isNone_some, Bool.false_eq_true, if_false]
  · intro dq hdq hnomatch
    have htouch : alistTouch s.completed h.listener
        ([] : List TransactionStats) = s.completed := by
      apply alistTouch_of_isSome
      rw [hdq]
      rfl
    simp only [registerPendingCallbackHandle, htouch, hdq, Option.getD_some,
      hnomatch]

/-- Witness for the amended C5: handle for never-seen listener `3` on the
empty dispatcher. -/
theorem tci_C5_amended_witness :
    registerPendingCallbackHandle (sampleHandle 3 [cidCommit 1] none 0)
        initState =
      some (Stat.badValue,
        { initState with completed := initState.completed ++ [(3, [])] }) ∧
    ∀ ids, (startRegistration (3, ids)
        { initState with completed :=
          initState.completed ++ [(3, [])] }).2.linked = initState.linked :=
  (tci_C5_amended initState (sampleHandle 3 [cidCommit 1] none 0)).1
    (by decide)

theorem foldIntoLast_cons_found (t : TransactionStats)
    (rest rest' : List TransactionStats) (ids : List CallbackId)
    (f : TransactionStats → TransactionStats)
    (h : foldIntoLast rest ids f = some (some rest')) :
    foldIntoLast (t :: rest) ids f = some (some (t :: rest')) := by
  simp [foldIntoLast, h]

theorem foldIntoLast_cons_back_nomatch (t : TransactionStats)
    (rest : List TransactionStats) (ids : List CallbackId)
    (f : TransactionStats → TransactionStats)
    (h : foldIntoLast rest ids f = some none) :
    foldIntoLast (t :: rest) ids f =
      (match compareCallbackIds t.callbackIds ids with
       | none => none
       | some c => if c = 0 then some (some (f t :: rest)) else some none) := by
  simp [foldIntoLast, h]

/-- A successful back-to-front fold rewrites exactly one position of the
deque, applying `f` there and leaving every other record unchanged. -/
theorem foldIntoLast_eq_set (dq : List TransactionStats)
    (ids : List CallbackId) (f : TransactionStats → TransactionStats)
    (dq' : List TransactionStats)
    (h : foldIntoLast dq ids f = some (some dq')) :
    ∃ i, ∃ hi : i < dq.length, dq' = dq.set i (f (dq.get ⟨i, hi⟩)) := by
  induction dq generalizing dq' with
  | nil => simp [foldIntoLast] at h
  | cons t rest ih =>
    cases hr : foldIntoLast rest ids f with
    | none =>
      rw [show foldIntoLast (t :: rest) ids f = none by
        simp [foldIntoLast, hr]] at h
      cases h
    | some o =>
      cases o with
      | some rest' =>
        rw [foldIntoLast_cons_found t rest rest' ids f hr] at h
        have hdq : dq' = t :: rest' := by
          injection h with h'
          injection h' with h''
          exact h''.symm
        subst hdq
        obtain ⟨i, hi, hset⟩ := ih rest' hr
        exact ⟨i + 1, Nat.succ_lt_succ hi, by simp [hset]⟩
      | none =>
        rw [foldIntoLast_cons_back_nomatch t rest ids f hr] at h
        cases hc : compareCallbackIds t.callbackIds ids with
        | none => rw [hc] at h; cases h
        | some c =>
          rw [hc] at h
          have h' : (if c = 0 then some (some (f t :: rest))
              else some none) = some (some dq') := h
          by_cases hc0 : c = 0
          · rw [if_pos hc0] at h'
            have hdq : dq' = f t :: rest := by
              injection h' with ha
              injection ha with hb
              exact hb.symm
            subst hdq
            exact ⟨0, Nat.succ_pos _, by simp⟩
          · rw [if_neg hc0] at h'
            cases h'

/-- A successful back-to-front fold preserves any projection that `f`
preserves, record by record. -/
theorem foldIntoLast_map {γ : Type} (dq : List TransactionStats)
    (ids : List CallbackId) (f : TransactionStats → TransactionStats)
    (dq' : List TransactionStats) (g : TransactionStats → γ)
    (hg : ∀ t, g (f t) = g t)
    (h : foldIntoLast dq ids f = some (some dq')) :
    dq'.map g = dq.map g := by
  induction dq generalizing dq' with
  | nil => simp [foldIntoLast] at h
  | cons t rest ih =>
    cases hr : foldIntoLast rest ids f with
    | none =>
      rw [show foldIntoLast (t :: rest) ids f = none by
        simp [foldIntoLast, hr]] at h
      cases h
    | some o =>
      cases o with
      | some rest' =>
        rw [foldIntoLast_cons_found t rest rest' ids f hr] at h
        have hdq : dq' = t :: rest' := by
          injection h with ha
          injection ha with hb
          exact hb.symm
        subst hdq
        simp [ih rest' hr]
      | none =>
        rw [foldIntoLast_cons_back_nomatch t rest ids f hr] at h
        cases hc : compareCallbackIds t.callbackIds ids with
        | none => rw [hc] at h; cases h
        | some c =>
          rw [hc] at h
          have h' : (if c = 0 then some (some (f t :: rest))
              else some none) = some (some dq') := h
          by_cases hc0 : c = 0
          · rw [if_pos hc0] at h'
            have hdq : dq' = f t :: rest := by
              injection h' with ha
              injection ha with hb
              exact hb.symm
            subst hdq
            simp [hg]
          · rw [if_neg hc0] at h'
            cases h'

/- ## Claim C8: folding a handle into its transaction -/

/-- **C8.**  `addCallbackHandle` locates the handle's transaction
(back-to-front), sets its latch time from the handle, and appends exactly
one result record when the weak reference is alive and none when it is gone;
all other records of the result sequence, all other fields of the
transaction, and all other transactions are unchanged. -/
theorem tci_C8 (s : InvokerState) (h : CallbackHandle) (jank : List JankData)
    (dq dq' : List TransactionStats)
    (h1 : alistFind s.completed h.listener = some dq)
    (h2 : foldIntoLast dq h.callbackIds (foldHandle h jank) =
      some (some dq')) :
    addCallbackHandle h jank s =
      some (Stat.noError,
        { s with completed := alistSet s.completed h.listener dq' }) ∧
    (∃ i, ∃ hi : i < dq.length,
      dq' = dq.set i (foldHandle h jank (dq.get ⟨i, hi⟩))) ∧
    (∀ t, (foldHandle h jank t).latchTime = h.latchTime ∧
      (foldHandle h jank t).callbackIds = t.callbackIds ∧
      (foldHandle h jank t).presentFence = t.presentFence ∧
      (foldHandle h jank t).seq = t.seq) ∧
    (∀ t sc, h.surfaceControl = some sc →
      (foldHandle h jank t).surfaceStats =
        t.surfaceStats ++ [mkSurfaceStats sc h jank]) ∧
    (∀ t, h.surfaceControl = none →
      (foldHandle h jank t).surfaceStats = t.surfaceStats) := by
  have htouch : alistTouch s.completed h.listener [] = s.completed :=
    alistTouch_of_isSome _ _ _ (by rw [h1]; rfl)
  refine ⟨?_, foldIntoLast_eq_set dq h.callbackIds _ dq' h2, ?_, ?_, ?_⟩
  · simp only [addCallbackHandle, htouch, h1, Option.getD_some, h2]
  · intro t
    cases hs : h.surfaceControl <;> simp [foldHandle, hs]
  · intro t sc hsc
    simp [foldHandle, hsc]
  · intro t hsc
    simp [foldHandle, hsc]

/-- Witness for C8: folding `hC7` into the single transaction of `stC7`. -/
theorem tci_C8_witness :
    addCallbackHandle hC7 [] stC7 =
      some (Stat.noError,
        { stC7 with completed := alistSet stC7.completed hC7.listener dqC7F }) ∧
    (∃ i, ∃ hi : i < dqC7.length,
      dqC7F = dqC7.set i (foldHandle hC7 [] (dqC7.get ⟨i, hi⟩))) ∧
    (∀ t, (foldHandle hC7 [] t).latchTime = hC7.latchTime ∧
      (foldHandle hC7 [] t).callbackIds = t.callbackIds ∧
      (foldHandle hC7 [] t).presentFence = t.presentFence ∧
      (foldHandle hC7 [] t).seq = t.seq) ∧
    (∀ t sc, hC7.surfaceControl = some sc →
      (foldHandle hC7 [] t).surfaceStats =
        t.surfaceStats ++ [mkSurfaceStats sc hC7 []]) ∧
    (∀ t, hC7.surfaceControl = none →
      (foldHandle hC7 [] t).surfaceStats = t.surfaceStats) :=
  tci_C8 stC7 hC7 [] dqC7 dqC7F (by decide) (by decide)

theorem alistSet_ne_nil {α β : Type} [DecidableEq α] (m : List (α × β))
    (k : α) (v : β) : alistSet m k v ≠ [] := by
  cases m with
  | nil => simp [alistSet]
  | cons p rest =>
    obtain ⟨a, b⟩ := p
    by_cases h : a = k <;> simp [alistSet, h]

/- ## Claim C7: finalize decrements, erases at zero, tolerates underflow -/

/-- **C7.**  When the handle's `(listener, ids)` resolves to a tracked
transaction, `finalizeCallbackHandle` succeeds: an existing pending counter
`c` is decremented and its entry removed exactly when the count reaches
zero (`c = 1`); an absent counter (more finalizations than registrations) is
only warned about, the handle is still folded into the transaction, and the
call still returns success. -/
theorem tci_C7 (s : InvokerState) (h : CallbackHandle) (jank : List JankData)
    (dq dq' : List TransactionStats)
    (h1 : alistFind s.completed h.listener = some dq)
    (h2 : foldIntoLast dq h.callbackIds (foldHandle h jank) =
      some (some dq'))
    (h4 : ∀ inner, alistFind s.pending h.listener = some inner →
      (inner.map Prod.fst).Nodup)
    (h5 : (s.pending.map Prod.fst).Nodup)
    (h3 : ∀ c, pendingLookup s h.listener h.callbackIds = some c →
      1 ≤ c ∧ c < UINT32) :
    ∃ s', finalizeCallbackHandle h jank s = some (Stat.noError, s') ∧
      s'.completed = alistSet s.completed h.listener dq' ∧
      (∀ c, pendingLookup s h.listener h.callbackIds = some c →
        pendingLookup s' h.listener h.callbackIds =
          (if c = 1 then none else some (c - 1))) ∧
      (pendingLookup s h.listener h.callbackIds = none →
        pendingLookup s' h.listener h.callbackIds = none) := by
  have htouch : alistTouch s.completed h.listener [] = s.completed :=
    alistTouch_of_isSome _ _ _ (by rw [h1]; rfl)
  have hadd : ∀ p : PendingMap,
      addCallbackHandle h jank { s with pending := p } =
        some (Stat.noError,
          { s with
              pending := p,
              completed := alistSet s.completed h.listener dq' }) := by
    intro p
    simp only [addCallbackHandle, htouch, h1, Option.getD_some, h2]
  have hadd0 : addCallbackHandle h jank s =
      some (Stat.noError,
        { s with completed := alistSet s.completed h.listener dq' }) := by
    simp only [addCallbackHandle, htouch, h1, Option.getD_some, h2]
  cases hp : alistFind s.pending h.listener with
  | none =>
    have hlook : pendingLookup s h.listener h.callbackIds = none := by
      simp [pendingLookup, hp]
    have hred : finalizeCallbackHandle h jank s = addCallbackHandle h jank s := by
      simp only [finalizeCallbackHandle, hp]
    refine ⟨{ s with completed := alistSet s.completed h.listener dq' },
      ?_, rfl, ?_, ?_⟩
    · rw [hred]
      exact hadd0
    · intro c hcc
      rw [hlook] at hcc
      cases hcc
    · intro _
      exact hlook
  | some inner =>
    have hinnernd := h4 inner hp
    cases hc : alistFind inner h.callbackIds with
    | none =>
      have hlook : pendingLookup s h.listener h.callbackIds = none := by
        simp [pendingLookup, hp, hc]
      by_cases hlen : inner.length = 0
      · have hred : finalizeCallbackHandle h jank s =
            addCallbackHandle h jank
              { s with pending := alistErase s.pending h.listener } := by
          simp only [finalizeCallbackHandle, hp, hc]
          rw [if_pos hlen]
        refine ⟨{ s with
            pending := alistErase s.pending h.listener,
            completed := alistSet s.completed h.listener dq' },
          ?_, rfl, ?_, ?_⟩
        · rw [hred]
          exact hadd _
        · intro c hcc
          rw [hlook] at hcc
          cases hcc
        · intro _
          simp [pendingLookup, alistFind_erase_self s.pending h.listener h5]
      · have hred : finalizeCallbackHandle h jank s =
            addCallbackHandle h jank
              { s with pending := alistSet s.pending h.listener inner } := by
          simp only [finalizeCallbackHandle, hp, hc]
          rw [if_neg hlen]
        refine ⟨{ s with
            pending := alistSet s.pending h.listener inner,
            completed := alistSet s.completed h.listener dq' },
          ?_, rfl, ?_, ?_⟩
        · rw [hred]
          exact hadd _
        · intro c hcc
          rw [hlook] at hcc
          cases hcc
        · intro _
          simp [pendingLookup, alistFind_set_self, hc]
    | some c0 =>
      have hlookup0 : pendingLookup s h.listener h.callbackIds = some c0 := by
        simp [pendingLookup, hp, hc]
      obtain ⟨hb1, hb2⟩ := h3 c0 hlookup0
      have hdec : (c0 + (UINT32 - 1)) % UINT32 = c0 - 1 := by
        simp only [UINT32] at hb2 ⊢
        omega
      by_cases h01 : c0 = 1
      · have hz : c0 - 1 = 0 := by omega
        by_cases hlen : (alistErase inner h.callbackIds).length = 0
        · have hred : finalizeCallbackHandle h jank s =
              addCallbackHandle h jank
                { s with pending := alistErase s.pending h.listener } := by
            simp only [finalizeCallbackHandle, hp, hc, hdec]
            rw [if_pos hz, if_pos hlen]
          refine ⟨{ s with
              pending := alistErase s.pending h.listener,
              completed := alistSet s.completed h.listener dq' },
            ?_, rfl, ?_, ?_⟩
          · rw [hred]
            exact hadd _
          · intro c hcc
            rw [hlookup0] at hcc
            cases hcc
            rw [if_pos h01]
            simp [pendingLookup, alistFind_erase_self s.pending h.listener h5]
          · intro hcc
            rw [hlookup0] at hcc
            cases hcc
        · have hred : finalizeCallbackHandle h jank s =
              addCallbackHandle h jank
                { s with
                  pending := alistSet s.pending h.listener
                    (alistErase inner h.callbackIds) } := by
            simp only [finalizeCallbackHandle, hp, hc, hdec]
            rw [if_pos hz, if_neg hlen]
          refine ⟨{ s with
              pending := alistSet s.pending h.listener
                (alistErase inner h.callbackIds),
              completed := alistSet s.completed h.listener dq' },
            ?_, rfl, ?_, ?_⟩
          · rw [hred]
            exact hadd _
          · intro c hcc
            rw [hlookup0] at hcc
            cases hcc
            rw [if_pos h01]
            simp [pendingLookup, alistFind_set_self,
              alistFind_erase_self inner h.callbackIds hinnernd]
          · intro hcc
            rw [hlookup0] at hcc
            cases hcc
      · have hz : ¬(c0 - 1 = 0) := by omega
        have hlen : ¬((alistSet inner h.callbackIds (c0 - 1)).length = 0) := by
          intro hcon
          exact alistSet_ne_nil inner h.callbackIds (c0 - 1)
            (List.length_eq_zero.mp hcon)
        have hred : finalizeCallbackHandle h jank s =
            addCallbackHandle h jank
              { s with
                pending := alistSet s.pending h.listener
                  (alistSet inner h.callbackIds (c0 - 1)) } := by
          simp only [finalizeCallbackHandle, hp, hc, hdec]
          rw [if_neg hz, if_neg hlen]
        refine ⟨{ s with
            pending := alistSet s.pending h.listener
              (alistSet inner h.callbackIds (c0 - 1)),
            completed := alistSet s.completed h.listener dq' },
          ?_, rfl, ?_, ?_⟩
        · rw [hred]
          exact hadd _
        · intro c hcc
          rw [hlookup0] at hcc
          cases hcc
          rw [if_neg h01]
          simp [pendingLookup, alistFind_set_self]
        · intro hcc
          rw [hlookup0] at hcc
          cases hcc

/-- Witness for C7: finalizing `hC7` against `stC7`, whose pending counter
for the pair is `2` (so the counter drops to `1` and the entry stays). -/
theorem tci_C7_witness :
    ∃ s', finalizeCallbackHandle hC7 [] stC7 = some (Stat.noError, s') ∧
      s'.completed = alistSet stC7.completed hC7.listener dqC7F ∧
      (∀ c, pendingLookup stC7 hC7.listener hC7.callbackIds = some c →
        pendingLookup s' hC7.listener hC7.callbackIds =
          (if c = 1 then none else some (c - 1))) ∧
      (pendingLookup stC7 hC7.listener hC7.callbackIds = none →
        pendingLookup s' hC7.listener hC7.callbackIds = none) :=
  tci_C7 stC7 hC7 [] dqC7 dqC7F (by decide) (by decide)
    (by
      intro inner hinner
      have h' : some [([cidComplete 3], 2)] = some inner := hinner
      cases h'
      decide)
    (by decide)
    (by
      intro c hcc
      have h' : some 2 = some c := hcc
      cases h'
      decide)

theorem alistFind_of_mem_nodup {α β : Type} [DecidableEq α]
    (m : List (α × β)) (k : α) (v : β) (hmem : (k, v) ∈ m)
    (hnd : (m.map Prod.fst).Nodup) : alistFind m k = some v := by
  induction m with
  | nil => simp at hmem
  | cons p rest ih =>
    obtain ⟨a, b⟩ := p
    simp only [List.map_cons, List.nodup_cons] at hnd
    rcases List.mem_cons.mp hmem with hh | hh
    · obtain ⟨rfl, rfl⟩ : k = a ∧ v = b :=
        ⟨congrArg Prod.fst hh, congrArg Prod.snd hh⟩
      simp [alistFind]
    · have hka : a ≠ k := by
        intro hc
        subst hc
        exact hnd.1 (List.mem_map.mpr ⟨(a, v), hh, rfl⟩)
      simp [alistFind, hka, ih hh hnd.2]

theorem alistTouch_find {α β : Type} [DecidableEq α] (m : List (α × β))
    (k : α) (d : β) :
    alistFind (alistTouch m k d) k = some ((alistFind m k).getD d) := by
  cases hm : alistFind m k with
  | some v =>
    rw [alistTouch_of_isSome m k d (by rw [hm]; rfl), hm]
    rfl
  | none =>
    rw [alistTouch_of_none m k d hm, alistFind_append, hm]
    simp [alistFind]

theorem alistTouch_map_fst {α β : Type} [DecidableEq α] (m : List (α × β))
    (k : α) (d : β) :
    (alistTouch m k d).map Prod.fst = m.map Prod.fst ∨
    ((alistTouch m k d).map Prod.fst = m.map Prod.fst ++ [k] ∧
      k ∉ m.map Prod.fst) := by
  cases hm : alistFind m k with
  | some v =>
    left
    rw [alistTouch_of_isSome m k d (by rw [hm]; rfl)]
  | none =>
    right
    rw [alistTouch_of_none m k d hm]
    exact ⟨by simp, (alistFind_eq_none_iff m k).mp hm⟩

theorem deqSeqs_touch (m : CompletedMap) (k l : Listener) :
    deqSeqs (alistTouch m k []) l = deqSeqs m l := by
  cases hm : alistFind m k with
  | some v => rw [alistTouch_of_isSome m k [] (by rw [hm]; rfl)]
  | none =>
    rw [alistTouch_of_none m k [] hm]
    unfold deqSeqs
    rw [alistFind_append]
    by_cases hl : l = k
    · subst hl
      rw [hm]
      simp [alistFind]
    · cases hf : alistFind m l with
      | some w => rfl
      | none =>
        have hkl : k ≠ l := fun h => hl h.symm
        simp [alistFind, hkl]

theorem deqSeqs_set_self (m : CompletedMap) (l : Listener)
    (dq : List TransactionStats) :
    deqSeqs (alistSet m l dq) l = dq.map TransactionStats.seq := by
  unfold deqSeqs
  rw [alistFind_set_self]
  rfl

theorem deqSeqs_set_ne (m : CompletedMap) (k l : Listener)
    (dq : List TransactionStats) (h : l ≠ k) :
    deqSeqs (alistSet m k dq) l = deqSeqs m l := by
  unfold deqSeqs
  rw [alistFind_set_ne m k l dq h]

theorem delSeqs_append (ds ds' : List Delivery) (l : Listener) :
    delSeqs (ds ++ ds') l = delSeqs ds l ++ delSeqs ds' l := by
  simp [delSeqs]

theorem delSeqs_eq_deliveredTo (ds : List Delivery) (l : Listener) :
    delSeqs ds l =
      (deliveredTo ds l).flatMap (fun b => b.map TransactionStats.seq) := by
  induction ds with
  | nil => rfl
  | cons d rest ih =>
    obtain ⟨k, b⟩ := d
    by_cases hk : k = l
    · subst hk
      simp only [delSeqs, List.flatMap_cons, if_pos rfl] at *
      rw [deliveredTo_cons_eq]
      simp only [List.flatMap_cons]
      rw [← ih]
      rfl
    · have hlk : l ≠ k := Ne.symm hk
      simp only [delSeqs, List.flatMap_cons, if_neg hk] at *
      rw [deliveredTo_cons_ne k l b rest hlk, ← ih]
      rfl

theorem foldHandle_seq (h : CallbackHandle) (jank : List JankData)
    (t : TransactionStats) : (foldHandle h jank t).seq = t.seq := by
  cases hs : h.surfaceControl <;> simp [foldHandle, hs]

theorem registerPending_shape (h : CallbackHandle) (s : InvokerState)
    (st : Stat) (s' : InvokerState)
    (hreg : registerPendingCallbackHandle h s = some (st, s')) :
    s'.completed = alistTouch s.completed h.listener [] ∧
    s'.nextSeq = s.nextSeq ∧ s'.registering = s.registering := by
  simp only [registerPendingCallbackHandle] at hreg
  split at hreg
  · cases hreg
  · cases hreg
    exact ⟨rfl, rfl, rfl⟩
  · cases hreg
    exact ⟨rfl, rfl, rfl⟩

theorem addCallbackHandle_shape (h : CallbackHandle) (jank : List JankData)
    (s : InvokerState) (st : Stat) (s' : InvokerState)
    (hreg : addCallbackHandle h jank s = some (st, s')) :
    s'.registering = s.registering ∧ s'.nextSeq = s.nextSeq ∧
    s'.completed.map Prod.fst =
      (alistTouch s.completed h.listener []).map Prod.fst ∧
    (∀ l, deqSeqs s'.completed l = deqSeqs s.completed l) := by
  have hmem : h.listener ∈
      (alistTouch s.completed h.listener []).map Prod.fst := by
    by_contra hc
    have := (alistFind_eq_none_iff
      (alistTouch s.completed h.listener []) h.listener).mpr hc
    rw [alistTouch_find] at this
    cases this
  simp only [addCallbackHandle] at hreg
  split at hreg
  · cases hreg
  · cases hreg
    exact ⟨rfl, rfl, rfl, fun l => deqSeqs_touch s.completed h.listener l⟩
  · rename_i dq' heq
    cases hreg
    refine ⟨rfl, rfl, ?_, ?_⟩
    · exact alistSet_map_fst_of_mem _ _ _ hmem
    · intro l
      by_cases hl : l = h.listener
      · subst hl
        show deqSeqs (alistSet (alistTouch s.completed h.listener [])
          h.listener dq') h.listener = deqSeqs s.completed h.listener
        rw [deqSeqs_set_self]
        have hm : dq'.map TransactionStats.seq =
            ((alistFind (alistTouch s.completed h.listener [])
              h.listener).getD []).map TransactionStats.seq :=
          foldIntoLast_map _ _ _ _ TransactionStats.seq
            (foldHandle_seq h jank) heq
        rw [hm, alistTouch_find]
        rfl
      · show deqSeqs (alistSet (alistTouch s.completed h.listener [])
          h.listener dq') l = deqSeqs s.completed l
        rw [deqSeqs_set_ne _ _ _ _ hl]
        exact deqSeqs_touch s.completed h.listener l

theorem finalize_shape (h : CallbackHandle) (jank : List JankData)
    (s : InvokerState) (st : Stat) (s' : InvokerState)
    (hreg : finalizeCallbackHandle h jank s = some (st, s')) :
    ∃ s1 : InvokerState, s1.completed = s.completed ∧
      s1.nextSeq = s.nextSeq ∧ s1.registering = s.registering ∧
      addCallbackHandle h jank s1 = some (st, s') := by
  cases hp : alistFind s.pending h.listener with
  | none =>
    have hreg' := hreg
    simp only [finalizeCallbackHandle, hp] at hreg'
    exact ⟨s, rfl, rfl, rfl, hreg'⟩
  | some inner =>
    have hreg' := hreg
    simp only [finalizeCallbackHandle, hp] at hreg'
    refine ⟨_, ?_, ?_, ?_, hreg'⟩ <;> rfl

theorem map_applyFence_seq (fence : Option Fence)
    (xs : List TransactionStats) :
    (xs.map (applyFence fence)).map TransactionStats.seq =
      xs.map TransactionStats.seq := by
  rw [List.map_map]
  exact List.map_congr_left (fun t _ => applyFence_seq fence t)

/-- One dispatch cycle conserves the per-listener ghost sequence: the
delivered numbers followed by the still-queued numbers are exactly the
previously queued numbers (or, for a dead listener, both become empty). -/
theorem send_seqs (reg : RegSet) (pend : PendingMap) (fence : Option Fence)
    (alive : Listener → Bool) (m : CompletedMap)
    (hnd : (m.map Prod.fst).Nodup) (l : Listener) :
    delSeqs (sendLoop reg pend fence alive m).2.1 l ++
      deqSeqs (sendLoop reg pend fence alive m).1 l = deqSeqs m l ∨
    (delSeqs (sendLoop reg pend fence alive m).2.1 l = [] ∧
     deqSeqs (sendLoop reg pend fence alive m).1 l = []) := by
  by_cases hin : l ∈ m.map Prod.fst
  · obtain ⟨p, hp, hpl⟩ := List.mem_map.mp hin
    obtain ⟨k, dq⟩ := p
    have hkl : k = l := hpl
    rw [hkl] at hp
    clear hkl hpl
    obtain ⟨c1, c2, c3, c4⟩ :=
      sendLoop_entry reg pend fence alive m hnd l dq hp
    have hfind : alistFind m l = some dq :=
      alistFind_of_mem_nodup m l dq hp hnd
    have hdq : deqSeqs m l = dq.map TransactionStats.seq := by
      unfold deqSeqs
      rw [hfind]
      rfl
    obtain ⟨n, _, hwb, hwd, _, _⟩ := walkDeque_spec reg pend fence l dq
    by_cases hw : (walkDeque reg pend fence l dq).1 = []
    · obtain ⟨f1, _, f3⟩ := c1 hw
      left
      rw [delSeqs_eq_deliveredTo, f3, hdq]
      have hrest : (walkDeque reg pend fence l dq).2 = dq :=
        walkDeque_fst_empty reg pend fence l dq hw
      unfold deqSeqs
      rw [f1, hrest]
      rfl
    · by_cases ha : alive l = true
      · by_cases hw2 : (walkDeque reg pend fence l dq).2 = []
        · obtain ⟨f1, _, f3⟩ := c2 hw ha hw2
          left
          rw [delSeqs_eq_deliveredTo, f3, hdq]
          have hdeq : deqSeqs (sendLoop reg pend fence alive m).1 l = [] := by
            unfold deqSeqs
            rw [f1]
            rfl
          rw [hdeq, List.append_nil]
          simp only [List.flatMap_cons, List.flatMap_nil, List.append_nil]
          rw [hwb, map_applyFence_seq]
          have hdrop : dq.drop n = [] := by rw [← hwd]; exact hw2
          have htake : dq.take n = dq := by
            conv_rhs => rw [← List.take_append_drop n dq]
            rw [hdrop, List.append_nil]
          rw [htake]
        · obtain ⟨f1, _, f3⟩ := c3 hw ha hw2
          left
          rw [delSeqs_eq_deliveredTo, f3, hdq]
          have hdeq : deqSeqs (sendLoop reg pend fence alive m).1 l =
              (dq.drop n).map TransactionStats.seq := by
            unfold deqSeqs
            rw [f1, hwd]
            rfl
          rw [hdeq]
          simp only [List.flatMap_cons, List.flatMap_nil, List.append_nil]
          rw [hwb, map_applyFence_seq, ← List.map_append,
            List.take_append_drop]
      · rw [Bool.not_eq_true] at ha
        obtain ⟨f1, _, f3⟩ := c4 hw ha
        right
        constructor
        · rw [delSeqs_eq_deliveredTo, f3]
          rfl
        · unfold deqSeqs
          rw [f1]
          rfl
  · left
    have hfind : alistFind m l = none := (alistFind_eq_none_iff m l).mpr hin
    have hfind' : alistFind (sendLoop reg pend fence alive m).1 l = none := by
      rw [alistFind_eq_none_iff]
      intro hc
      exact hin ((sendLoop_keys_sublist reg pend fence alive m).subset hc)
    have hdel := sendLoop_deliveredTo_nil reg pend fence alive m l hin
    rw [delSeqs_eq_deliveredTo, hdel]
    unfold deqSeqs
    rw [hfind, hfind']
    rfl

theorem nodup_append_singleton {α : Type} (xs : List α) (a : α)
    (h1 : xs.Nodup) (h2 : a ∉ xs) : (xs ++ [a]).Nodup := by
  rw [List.nodup_append]
  exact ⟨h1, List.nodup_singleton a,
    fun x hx hy => h2 (List.mem_singleton.mp hy ▸ hx)⟩

theorem nodup_touch (m : CompletedMap) (k : Listener)
    (hnd : (m.map Prod.fst).Nodup) :
    ((alistTouch m k ([] : List TransactionStats)).map Prod.fst).Nodup := by
  rcases alistTouch_map_fst m k ([] : List TransactionStats) with h | ⟨h, hnotin⟩
  · rw [h]
    exact hnd
  · rw [h]
    exact nodup_append_singleton _ _ hnd hnotin

theorem goodSt_keys_seqs (s s' : InvokerState) (ds : List Delivery)
    (hg : GoodSt s ds) (hnd : (s'.completed.map Prod.fst).Nodup)
    (hseqs : ∀ l, deqSeqs s'.completed l = deqSeqs s.completed l)
    (hn : s.nextSeq ≤ s'.nextSeq) : GoodSt s' ds := by
  obtain ⟨_, h2⟩ := hg
  refine ⟨hnd, fun l => ⟨?_, ?_⟩⟩
  · rw [hseqs l]
    exact (h2 l).1
  · intro x hx
    rw [hseqs l] at hx
    exact lt_of_lt_of_le ((h2 l).2 x hx) hn

/-- Every dispatcher operation preserves the ordering invariant. -/
theorem step_good (s : InvokerState) (ds : List Delivery) (op : Op)
    (s' : InvokerState) (d : List Delivery) (hg : GoodSt s ds)
    (hstep : step s op = some (s', d)) : GoodSt s' (ds ++ d) := by
  cases op with
  | start l ids =>
    cases hstep
    rw [List.append_nil]
    by_cases hmem : (l, ids) ∈ s.registering
    · have hs : (startRegistration (l, ids) s).2 = s := by
        unfold startRegistration
        rw [if_pos hmem]
      rw [hs]
      exact hg
    · have hs : (startRegistration (l, ids) s).2 =
          { s with
            registering := (l, ids) :: s.registering,
            completed := alistSet s.completed l
              (((alistFind s.completed l).getD []) ++
                [mkTransactionStats ids s.nextSeq]),
            linked := if (alistFind s.completed l).isNone then
              l :: s.linked else s.linked,
            nextSeq := s.nextSeq + 1 } := by
        unfold startRegistration
        rw [if_neg hmem]
      rw [hs]
      unfold GoodSt
      refine ⟨?_, fun l' => ⟨?_, ?_⟩⟩
      · show ((alistSet s.completed l _).map Prod.fst).Nodup
        cases hfind : alistFind s.completed l with
        | none =>
          have hnotin := (alistFind_eq_none_iff s.completed l).mp hfind
          rw [alistSet_map_fst_of_not_mem _ _ _ hnotin]
          exact nodup_append_singleton _ _ hg.1 hnotin
        | some v =>
          have hmem' : l ∈ s.completed.map Prod.fst := by
            by_contra hc
            rw [← alistFind_eq_none_iff] at hc
            rw [hfind] at hc
            cases hc
          rw [alistSet_map_fst_of_mem _ _ _ hmem']
          exact hg.1
      · by_cases hl : l' = l
        · subst hl
          show (delSeqs ds l' ++ deqSeqs (alistSet s.completed l' _) l').Pairwise
            (· < ·)
          rw [deqSeqs_set_self, List.map_append]
          have hold : deqSeqs s.completed l' =
              ((alistFind s.completed l').getD []).map TransactionStats.seq :=
            rfl
          rw [← hold, ← List.append_assoc]
          rw [List.pairwise_append]
          refine ⟨(hg.2 l').1, List.pairwise_singleton _ _, ?_⟩
          intro x hx y hy
          rw [show ([mkTransactionStats ids s.nextSeq].map
            TransactionStats.seq) = [s.nextSeq] from rfl] at hy
          rw [List.mem_singleton] at hy
          subst hy
          exact (hg.2 l').2 x hx
        · show (delSeqs ds l' ++ deqSeqs (alistSet s.completed l _) l').Pairwise
            (· < ·)
          rw [deqSeqs_set_ne _ _ _ _ hl]
          exact (hg.2 l').1
      · intro x hx
        show x < s.nextSeq + 1
        by_cases hl : l' = l
        · subst hl
          rw [show deqSeqs (alistSet s.completed l' (((alistFind s.completed
              l').getD []) ++ [mkTransactionStats ids s.nextSeq])) l' =
              ((alistFind s.completed l').getD []).map TransactionStats.seq ++
                [s.nextSeq] from by rw [deqSeqs_set_self, List.map_append]; rfl]
            at hx
          rw [← List.append_assoc] at hx
          rcases List.mem_append.mp hx with hx | hx
          · exact Nat.lt_succ_of_lt ((hg.2 l').2 x hx)
          · rw [List.mem_singleton] at hx
            subst hx
            exact Nat.lt_succ_self _
        · rw [deqSeqs_set_ne _ _ _ _ hl] at hx
          exact Nat.lt_succ_of_lt ((hg.2 l').2 x hx)
  | endReg l ids =>
    cases hstep
    rw [List.append_nil]
    by_cases hmem : (l, ids) ∈ s.registering
    · have hs : (endRegistration (l, ids) s).2 =
          { s with registering := s.registering.erase (l, ids) } := by
        unfold endRegistration
        rw [if_pos hmem]
      rw [hs]
      exact goodSt_keys_seqs s _ ds hg hg.1 (fun _ => rfl) (le_refl _)
    · have hs : (endRegistration (l, ids) s).2 = s := by
        unfold endRegistration
        rw [if_neg hmem]
      rw [hs]
      exact hg
  | present f =>
    cases hstep
    rw [List.append_nil]
    exact goodSt_keys_seqs s _ ds hg hg.1 (fun _ => rfl) (le_refl _)
  | regPending h =>
    cases hreg : registerPendingCallbackHandle h s with
    | none =>
      rw [show step s (Op.regPending h) =
        (registerPendingCallbackHandle h s).map (fun p => (p.2, [])) from rfl,
        hreg] at hstep
      cases hstep
    | some p =>
      obtain ⟨st, s2⟩ := p
      rw [show step s (Op.regPending h) =
        (registerPendingCallbackHandle h s).map (fun p => (p.2, [])) from rfl,
        hreg] at hstep
      simp only [Option.map_some'] at hstep
      have hpair := Option.some.inj hstep
      have hseq : s' = s2 := (congrArg Prod.fst hpair).symm
      have hdeq : d = [] := (congrArg Prod.snd hpair).symm
      rw [hseq, hdeq, List.append_nil]
      obtain ⟨hc, hn, _⟩ := registerPending_shape h s st s2 hreg
      refine goodSt_keys_seqs s s2 ds hg ?_ ?_ ?_
      · rw [hc]
        exact nodup_touch _ _ hg.1
      · intro l
        rw [hc]
        exact deqSeqs_touch s.completed h.listener l
      · rw [hn]
  | finalize h jank =>
    cases hreg : finalizeCallbackHandle h jank s with
    | none =>
      rw [show step s (Op.finalize h jank) =
        (finalizeCallbackHandle h jank s).map (fun p => (p.2, [])) from rfl,
        hreg] at hstep
      cases hstep
    | some p =>
      obtain ⟨st, s2⟩ := p
      rw [show step s (Op.finalize h jank) =
        (finalizeCallbackHandle h jank s).map (fun p => (p.2, [])) from rfl,
        hreg] at hstep
      simp only [Option.map_some'] at hstep
      have hpair := Option.some.inj hstep
      have hseq : s' = s2 := (congrArg Prod.fst hpair).symm
      have hdeq : d = [] := (congrArg Prod.snd hpair).symm
      rw [hseq, hdeq, List.append_nil]
      obtain ⟨s1, hc1, hn1, _, hadd⟩ := finalize_shape h jank s st s2 hreg
      obtain ⟨_, hn2, hkeys, hseqs⟩ :=
        addCallbackHandle_shape h jank s1 st s2 hadd
      refine goodSt_keys_seqs s s2 ds hg ?_ ?_ ?_
      · rw [hkeys, hc1]
        exact nodup_touch _ _ hg.1
      · intro l
        rw [hseqs l, hc1]
      · rw [hn2, hn1]
  | unpresented h =>
    cases hreg : registerUnpresentedCallbackHandle h s with
    | none =>
      rw [show step s (Op.unpresented h) =
        (registerUnpresentedCallbackHandle h s).map (fun p => (p.2, []))
        from rfl, hreg] at hstep
      cases hstep
    | some p =>
      obtain ⟨st, s2⟩ := p
      rw [show step s (Op.unpresented h) =
        (registerUnpresentedCallbackHandle h s).map (fun p => (p.2, []))
        from rfl, hreg] at hstep
      simp only [Option.map_some'] at hstep
      have hpair := Option.some.inj hstep
      have hseq : s' = s2 := (congrArg Prod.fst hpair).symm
      have hdeq : d = [] := (congrArg Prod.snd hpair).symm
      rw [hseq, hdeq, List.append_nil]
      obtain ⟨_, hn2, hkeys, hseqs⟩ :=
        addCallbackHandle_shape h [] s st s2 hreg
      refine goodSt_keys_seqs s s2 ds hg ?_ ?_ ?_
      · rw [hkeys]
        exact nodup_touch _ _ hg.1
      · intro l
        exact hseqs l
      · rw [hn2]
  | send alive =>
    have heq : sendCallbacks alive s = (s', d) := Option.some.inj hstep
    have hs' : (sendCallbacks alive s).1 = s' := congrArg Prod.fst heq
    have hd : (sendCallbacks alive s).2 = d := congrArg Prod.snd heq
    subst hs'
    subst hd
    rw [sendCallbacks_eq]
    unfold GoodSt
    refine ⟨?_, fun l => ⟨?_, ?_⟩⟩
    · show (((sendLoop s.registering s.pending s.presentFence alive
        s.completed).1).map Prod.fst).Nodup
      exact List.Nodup.sublist
        (sendLoop_keys_sublist s.registering s.pending s.presentFence alive
          s.completed) hg.1
    · show (delSeqs (ds ++ (sendCallbacks alive s).2) l ++
        deqSeqs (sendLoop s.registering s.pending s.presentFence alive
          s.completed).1 l).Pairwise (· < ·)
      rw [sendCallbacks_eq, delSeqs_append, List.append_assoc]
      rcases send_seqs s.registering s.pending s.presentFence alive
        s.completed hg.1 l with hcase | ⟨hc1, hc2⟩
      · rw [hcase]
        exact (hg.2 l).1
      · rw [hc1, hc2, List.append_nil, List.append_nil]
        exact (List.pairwise_append.mp (hg.2 l).1).1
    · intro x hx
      show x < s.nextSeq
      have hx' : x ∈ delSeqs ds l ++
          (delSeqs (sendLoop s.registering s.pending s.presentFence alive
            s.completed).2.1 l ++
           deqSeqs (sendLoop s.registering s.pending s.presentFence alive
            s.completed).1 l) := by
        rw [← List.append_assoc, ← delSeqs_append]
        exact hx
      rcases send_seqs s.registering s.pending s.presentFence alive
        s.completed hg.1 l with hcase | ⟨hc1, hc2⟩
      · rw [hcase] at hx'
        exact (hg.2 l).2 x hx'
      · rw [hc1, hc2, List.append_nil, List.append_nil] at hx'
        exact (hg.2 l).2 x (List.mem_append_left _ hx')

theorem runFrom_good (ops : List Op) (s : InvokerState) (ds : List Delivery)
    (s' : InvokerState) (ds' : List Delivery) (hg : GoodSt s ds)
    (hrun : runFrom s ds ops = some (s', ds')) : GoodSt s' ds' := by
  induction ops generalizing s ds with
  | nil =>
    cases hrun
    exact hg
  | cons op ops ih =>
    simp only [runFrom] at hrun
    cases hstep : step s op with
    | none =>
      rw [hstep] at hrun
      cases hrun
    | some p =>
      obtain ⟨s1, d⟩ := p
      rw [hstep] at hrun
      exact ih s1 (ds ++ d) (step_good s ds op s1 d hg hstep) hrun

theorem goodSt_init : GoodSt initState [] := by
  unfold GoodSt
  refine ⟨by simp [initState], fun l => ⟨?_, ?_⟩⟩
  · show (delSeqs [] l ++ deqSeqs initState.completed l).Pairwise (· < ·)
    simp [delSeqs, deqSeqs, initState, alistFind]
  · intro x hx
    simp [delSeqs, deqSeqs, initState, alistFind] at hx

/- ## Claim C1: per-listener delivery follows registration order -/

/-- **C1.**  Deliveries never reorder a listener's transactions: over any
run of the dispatcher from the empty state (any interleaving of
registrations, registration closes, work-unit registrations and
finalizations, presentation signals and dispatch cycles, with listeners live
or dead per cycle), the ghost registration numbers delivered to each
listener — flattened across cycles and through each batch front to back —
are strictly increasing; so a transaction registered earlier is never
delivered after one registered later, and each batch lists its transactions
in submission order.  Moreover within one cycle every outbound batch is a
front prefix of the listener's deque in deque order. -/
theorem tci_C1 (ops : List Op) (s : InvokerState) (ds : List Delivery)
    (hrun : run ops = some (s, ds)) :
    (∀ l, (delSeqs ds l).Pairwise (· < ·)) ∧
    (∀ (s0 : InvokerState) (alive : Listener → Bool) (l : Listener)
      (batch : List TransactionStats),
      (l, batch) ∈ (sendCallbacks alive s0).2 →
      ∃ dq n, (l, dq) ∈ s0.completed ∧
        batch = (dq.take n).map (applyFence s0.presentFence)) := by
  constructor
  · intro l
    have hgood := runFrom_good ops initState [] s ds goodSt_init hrun
    exact (List.pairwise_append.mp (hgood.2 l).1).1
  · intro s0 alive l batch hmem
    have hmem' : (l, batch) ∈
        (sendLoop s0.registering s0.pending s0.presentFence alive
          s0.completed).2.1 := hmem
    obtain ⟨dq, hdq, _, hb, _⟩ :=
      sendLoop_mem_deliveries s0.registering s0.pending s0.presentFence alive
        s0.completed l batch hmem'
    obtain ⟨n, _, hwb, _, _, _⟩ :=
      walkDeque_spec s0.registering s0.pending s0.presentFence l dq
    exact ⟨dq, n, hdq, by rw [hb, hwb]⟩

/-- Witness for C1: listener `0` registers A then B; B's work finishes
first and a presentation signal arrives, yet the dispatch delivers nothing
until A is also ready, then delivers A before B in one batch (ghost numbers
`0` then `1`). -/
theorem tci_C1_witness :
    (∀ l, (delSeqs [(0,
      [{ callbackIds := [cidComplete 1], latchTime := 50,
         presentFence := some 100,
         surfaceStats := [mkSurfaceStats 1
           (sampleHandle 0 [cidComplete 1] (some 1) 50) []], seq := 0 },
       { callbackIds := [cidComplete 2], latchTime := 60,
         presentFence := some 100,
         surfaceStats := [mkSurfaceStats 2
           (sampleHandle 0 [cidComplete 2] (some 2) 60) []], seq := 1 }])]
      l).Pairwise (· < ·)) ∧
    (∀ (s0 : InvokerState) (alive : Listener → Bool) (l : Listener)
      (batch : List TransactionStats),
      (l, batch) ∈ (sendCallbacks alive s0).2 →
      ∃ dq n, (l, dq) ∈ s0.completed ∧
        batch = (dq.take n).map (applyFence s0.presentFence)) :=
  tci_C1
    [Op.start 0 [cidComplete 1], Op.endReg 0 [cidComplete 1],
     Op.start 0 [cidComplete 2], Op.endReg 0 [cidComplete 2],
     Op.regPending (sampleHandle 0 [cidComplete 1] (some 1) 0),
     Op.finalize (sampleHandle 0 [cidComplete 2] (some 2) 60) [],
     Op.present 99, Op.send (fun _ => true),
     Op.finalize (sampleHandle 0 [cidComplete 1] (some 1) 50) [],
     Op.present 100, Op.send (fun _ => true)]
    { registering := [], completed := [], pending := [],
      presentFence := none, linked := [], nextSeq := 2 }
    [(0,
      [{ callbackIds := [cidComplete 1], latchTime := 50,
         presentFence := some 100,
         surfaceStats := [mkSurfaceStats 1
           (sampleHandle 0 [cidComplete 1] (some 1) 50) []], seq := 0 },
       { callbackIds := [cidComplete 2], latchTime := 60,
         presentFence := some 100,
         surfaceStats := [mkSurfaceStats 2
           (sampleHandle 0 [cidComplete 2] (some 2) 60) []], seq := 1 }])]
    (by decide)
